import Mathlib

/-!
# The pore model of nanopolish (`src/nanopolish_poremodel.cpp`)

A shallow embedding of `PoreModel`: the per-k-mer emission table, the affine
recalibration (`bake_gaussian_parameters`), the two constructors (text table and
FAST5 container), the text writer and `update_states`.

Conventions of the embedding.

* `std::vector<T>` is `List T`, `std::string` is `List Char` (`Text`).
* Numbers (`float`/`double`) are values of a type parameter `F`; the arithmetic the
  source performs on them (`*`, `+`, `log`, `static_cast<float>`) is the record `Arith F`,
  and the stream operators `>>`/`<<` on numbers are the record `NumText F`.  Rounding is
  whatever these operations do: no law is assumed of them unless a theorem says so.
* `assert` is taken as enabled: a failed assertion is the error `assertFailed`.
  An out-of-range `operator[]` store and `model[0]` on an empty vector are undefined
  behaviour in C++; the embedding reports them as errors of their own.
* The loop counters (`int i`, `size_t ki`, `int ninserted`), the sizes and `k` are natural
  numbers: the tables are far below `2^31` entries and no k-mer is `2^32` characters long.
* The file system is outside the embedding: the text constructor is given the lines that
  `getline` delivers, and `write` returns the characters it sends to the file.
-/

namespace Nanopolish

/-- A `std::string`, as its sequence of characters. -/
abbrev Text := List Char

/-- The arithmetic the source performs on its floating-point values. `toFloat` is
`static_cast<float>`. -/
structure Arith (F : Type) where
  zero : F
  add : F → F → F
  mul : F → F → F
  log : F → F
  toFloat : F → F

/-- The arithmetic of a type that has `0`, `+` and `*`, with a given logarithm and cast. -/
def fieldArith {F : Type} [Zero F] [Add F] [Mul F] (log toFloat : F → F) : Arith F :=
  { zero := 0, add := fun a b => a + b, mul := fun a b => a * b, log := log, toFloat := toFloat }

/-- Modelled from the spec: the declaration of `PoreModelStateParams` is in the header
`nanopolish_poremodel.h`, which is not part of the sources; the four fields are the ones
the source reads and writes (`RawEmissionParams` of the spec). -/
structure PoreModelStateParams (F : Type) where
  level_mean : F
  level_stdv : F
  sd_mean : F
  sd_stdv : F
deriving DecidableEq, Repr

/-- Modelled from the spec: the element type of `scaled_params` is declared in the missing
header; its three fields are the ones `bake_gaussian_parameters` assigns
(`ScaledEmissionParams` of the spec). -/
structure ScaledEmissionParams (F : Type) where
  mean : F
  stdv : F
  log_stdv : F
deriving DecidableEq, Repr

/-- Modelled from the spec: the members of `PoreModel` are declared in the missing header;
these are the members the source file uses (`Model Entity` of the spec). -/
structure PoreModel (F : Type) where
  k : Nat
  states : List (PoreModelStateParams F)
  scaled_params : List (ScaledEmissionParams F)
  shift : F
  scale : F
  drift : F
  var : F
  scale_sd : F
  var_sd : F
  is_scaled : Bool
  name : Text
deriving DecidableEq, Repr

/-- The call `v.resize(n)` of `std::vector`: keep the first `n` elements, pad with the
value-initialised element `d`. -/
def resize {α : Type} (v : List α) (n : Nat) (d : α) : List α :=
  v.take n ++ List.replicate (n - v.length) d

/-- The value-initialised `PoreModelStateParams` that `resize` appends. -/
def PoreModelStateParams.zero {F : Type} (A : Arith F) : PoreModelStateParams F :=
  { level_mean := A.zero, level_stdv := A.zero, sd_mean := A.zero, sd_stdv := A.zero }

/-- The value-initialised element that `scaled_params.resize` appends. -/
def ScaledEmissionParams.zero {F : Type} (A : Arith F) : ScaledEmissionParams F :=
  { mean := A.zero, stdv := A.zero, log_stdv := A.zero }

namespace PoreModel

variable {F : Type}

/-- One iteration of the loop of `bake_gaussian_parameters` (lines 20-30), at index `i`:
three assignments to the fields of `scaled_params[i]`; `log_stdv` is computed from the
`stdv` just stored. -/
def bake_step (A : Arith F) (m : PoreModel F) (i : Nat) : PoreModel F :=
  match m.states[i]?, m.scaled_params[i]? with
  | some s, some g =>
    let g1 := { g with mean := A.add (A.mul s.level_mean m.scale) m.shift }
    let g2 := { g1 with stdv := A.mul s.level_stdv m.var }
    let g3 := { g2 with log_stdv := A.log g2.stdv }
    { m with scaled_params := m.scaled_params.set i g3 }
  | _, _ => m

/-- The method `PoreModel::bake_gaussian_parameters` (lines 16-32). -/
def bake_gaussian_parameters (A : Arith F) (m : PoreModel F) : PoreModel F :=
  let m1 := { m with
    scaled_params := resize m.scaled_params m.states.length (ScaledEmissionParams.zero A) }
  let m2 := (List.range m1.states.length).foldl (bake_step A) m1
  { m2 with is_scaled := true }

/-- The method `PoreModel::update_states(const std::vector<PoreModelStateParams>&)`
(lines 144-150). -/
def update_states (A : Arith F) (m : PoreModel F)
    (otherstates : List (PoreModelStateParams F)) : PoreModel F :=
  let m1 := { m with states := otherstates }
  if m1.is_scaled then bake_gaussian_parameters A m1 else m1

/-- The method `PoreModel::update_states(const PoreModel&)` (lines 139-142). -/
def update_states_from (A : Arith F) (m other : PoreModel F) : PoreModel F :=
  update_states A m other.states

/-- The scaled entry that the coefficients of `m` give for the raw entry `s`. -/
def scaled_of (A : Arith F) (m : PoreModel F) (s : PoreModelStateParams F) :
    ScaledEmissionParams F :=
  { mean := A.add (A.mul s.level_mean m.scale) m.shift
    stdv := A.mul s.level_stdv m.var
    log_stdv := A.log (A.mul s.level_stdv m.var) }

end PoreModel

/-! ## Text streams -/

/-- The function `isspace` of the C locale, which delimits tokens for `operator>>`. -/
def isspace (c : Char) : Bool :=
  c == ' ' || c == '\t' || c == '\n' || c == Char.ofNat 11 || c == Char.ofNat 12 || c == '\r'

/-- The call `hay.find(needle)` of `std::string`: the first position at which `needle`
occurs, `none` for `std::string::npos`. -/
def find : Text → Text → Option Nat
  | [], needle => if needle.isEmpty then some 0 else none
  | c :: cs, needle =>
    if needle.isPrefixOf (c :: cs) then some 0 else (find cs needle).map (fun i => i + 1)

/-- The successive results of `std::getline` on a stream that holds `t`, with `cur` the
characters of the current line read so far: a line ends at a newline, and a last line
without a newline is delivered when it is not empty. -/
def getlines_from : Text → Text → List Text
  | [], cur => if cur.isEmpty then [] else [cur]
  | c :: cs, cur => if c = '\n' then cur :: getlines_from cs [] else getlines_from cs (cur ++ [c])

/-- The lines that `while (getline(reader, line))` sees on a stream that holds `t`. -/
def getlines (t : Text) : List Text := getlines_from t []

/-- A `std::stringstream` being read: the unread characters, and whether the stream is
still good (neither `failbit` nor `eofbit` stopped an extraction). -/
structure IStream where
  buf : Text
  good : Bool
deriving DecidableEq, Repr

/-- The operators `>>` and `<<` of the streams on a number. `read t` is the extraction at
the head of `t` (leading white space already skipped): the value and the unread rest, or
`none` when no number can be read. `render x` is the text that `<<` writes. -/
structure NumText (F : Type) where
  read : Text → Option (F × Text)
  render : F → Text

/-- The extraction `parser >> target` into a `std::string`: skip white space, then take
the characters up to the next white space. At the end of the stream the extraction fails
and leaves `target` as it was. -/
def extract_string (st : IStream) (target : Text) : IStream × Text :=
  if st.good then
    match st.buf.dropWhile isspace with
    | [] => ({ buf := [], good := false }, target)
    | c :: cs =>
      ({ buf := (c :: cs).dropWhile (fun x => !isspace x), good := true },
        (c :: cs).takeWhile (fun x => !isspace x))
  else (st, target)

/-- The extraction `parser >> target` into a number: skip white space, then read a number.
At the end of the stream the extraction fails and leaves `target` as it was; when the text
is not a number the extraction fails and stores zero (C++11). -/
def extract_num {F : Type} (A : Arith F) (N : NumText F) (st : IStream) (target : F) :
    IStream × F :=
  if st.good then
    match st.buf.dropWhile isspace with
    | [] => ({ buf := [], good := false }, target)
    | c :: cs =>
      match N.read (c :: cs) with
      | some (v, rest) => ({ buf := rest, good := true }, v)
      | none => ({ buf := c :: cs, good := false }, A.zero)
  else (st, target)

/-! ## The alphabet -/

/-- Modelled from the spec: the class `Alphabet` is an external collaborator whose code is
not part of the sources; these are the four operations the source calls on it
(`get_num_strings(k)`, `kmer_rank(str, k)`, `base(i)`, `lexicographic_next(str)`), taken
as parameters. -/
structure Alphabet where
  get_num_strings : Nat → Nat
  kmer_rank : Text → Nat → Nat
  base : Nat → Char
  lexicographic_next : Text → Text

/-- The k-mer that the writer holds in `curr_kmer` at iteration `i`: `k` copies of
`base(0)`, advanced `i` times by `lexicographic_next`. -/
def Alphabet.kmer_at (al : Alphabet) (k i : Nat) : Text :=
  al.lexicographic_next^[i] (List.replicate k (al.base 0))

/-- Modelled from the spec: the contract of the alphabet for k-mers of length `k` (section 3
and 4.4 of the spec): there is at least one k-mer, the enumeration from the smallest k-mer
yields strings of length `k`, and `kmer_rank` is the position in that enumeration. -/
structure Alphabet.Enumerates (al : Alphabet) (k : Nat) : Prop where
  count_pos : 0 < al.get_num_strings k
  length_kmer : ∀ i, i < al.get_num_strings k → (al.kmer_at k i).length = k
  rank_kmer : ∀ i, i < al.get_num_strings k → al.kmer_rank (al.kmer_at k i) k = i

/-- The k-mers of length `k` can stand in a text table: their symbols are neither white
space nor `#`, and no k-mer begins with the header word `kmer`. -/
structure Alphabet.TextSafe (al : Alphabet) (k : Nat) : Prop where
  symbols : ∀ i, i < al.get_num_strings k →
    ∀ c ∈ al.kmer_at k i, isspace c = false ∧ c ≠ '#'
  not_header : ∀ i, i < al.get_num_strings k →
    "kmer".toList.isPrefixOf (al.kmer_at k i) = false

/-! ## The constructors and the writer -/

/-- The ways in which a constructor does not return an object. -/
inductive Err where
  | assertFailed
  | outOfRange
  | emptyModel
deriving DecidableEq, Repr

/-- The object at the entry of a constructor body. The source has no member initialisers:
the vectors and the string start empty, the scalar members hold what the memory `u` holds
(or what the missing header initialises them to). -/
def uninitialised {F : Type} (u : PoreModel F) : PoreModel F :=
  { u with states := [], scaled_params := [], name := [] }

/-- Lines 43-49 of the text constructor: the stream over the line and, when the line
contains `#model_name`, the extraction of two tokens, the second one into `name`. -/
def read_model_name (model_line : Text) (name : Text) : IStream × Text :=
  let strm : IStream := { buf := model_line, good := true }
  if (find model_line "#model_name".toList).isSome then
    extract_string (extract_string strm []).1 name
  else (strm, name)

/-- Line 52 of the text constructor: the test that skips a header line. The character
`model_line[0]` of an empty line is the terminator, which is not `#`. -/
def is_header (model_line : Text) : Bool :=
  model_line.head? == some '#' || find model_line "kmer".toList == some 0

/-- Lines 56-58 of the text constructor: the five extractions of a data row, from the
stream `strm` into a fresh `kmer` and into the local `params`, whose content at its
declaration is `junk`. -/
def read_row {F : Type} (A : Arith F) (N : NumText F) (strm : IStream)
    (junk : PoreModelStateParams F) : IStream × Text × PoreModelStateParams F :=
  let r0 := extract_string strm []
  let r1 := extract_num A N r0.1 junk.level_mean
  let r2 := extract_num A N r1.1 junk.level_stdv
  let r3 := extract_num A N r2.1 junk.sd_mean
  let r4 := extract_num A N r3.1 junk.sd_stdv
  (r4.1, r0.2,
    { level_mean := r1.2, level_stdv := r2.2, sd_mean := r3.2, sd_stdv := r4.2 })

/-- The state of the loop of the text constructor: the object under construction and the
locals `firstKmer` and `ninserted`. -/
structure LoadState (F : Type) where
  obj : PoreModel F
  firstKmer : Bool
  ninserted : Nat

/-- The body of the loop of the text constructor (lines 43-68) on one line. `junk n` is the
content of the uninitialised local `params` in the iteration of the data row number `n`. -/
def load_line {F : Type} (al : Alphabet) (A : Arith F) (N : NumText F)
    (junk : Nat → PoreModelStateParams F) (st : LoadState F) (model_line : Text) :
    Except Err (LoadState F) :=
  let hdr := read_model_name model_line st.obj.name
  let obj := { st.obj with name := hdr.2 }
  if is_header model_line then
    .ok { st with obj := obj }
  else
    let row := read_row A N hdr.1 (junk st.ninserted)
    let kmer := row.2.1
    let params := row.2.2
    let obj :=
      if st.firstKmer then
        { obj with
          k := kmer.length
          states := resize obj.states (al.get_num_strings kmer.length)
            (PoreModelStateParams.zero A) }
      else obj
    let rank := al.kmer_rank kmer obj.k
    if rank < obj.states.length then
      .ok { obj := { obj with states := obj.states.set rank params }
            firstKmer := false
            ninserted := st.ninserted + 1 }
    else .error Err.outOfRange

/-- The constructor `PoreModel::PoreModel(filename, alphabet)` (lines 34-72), on the lines
that `getline` delivers from the file (none when the file cannot be opened). -/
def from_file {F : Type} (al : Alphabet) (A : Arith F) (N : NumText F) (u : PoreModel F)
    (junk : Nat → PoreModelStateParams F) (lines : List Text) : Except Err (PoreModel F) :=
  match lines.foldlM (load_line al A N junk)
      { obj := uninitialised u, firstKmer := true, ninserted := 0 } with
  | .error e => .error e
  | .ok st => if st.ninserted = st.obj.states.length then .ok st.obj else .error Err.assertFailed

/-- Modelled from the spec: `fast5::Model_Entry` belongs to the container library, which is
not part of the sources; a record carries a k-mer and the four raw parameters (section 6 of
the spec). -/
structure Model_Entry (F : Type) where
  kmer : Text
  level_mean : F
  level_stdv : F
  sd_mean : F
  sd_stdv : F

/-- Modelled from the spec: `fast5::Model_Parameters` belongs to the container library,
which is not part of the sources; the scaling-parameter record of a strand (section 6 of
the spec). -/
structure Model_Parameters (F : Type) where
  drift : F
  scale : F
  scale_sd : F
  shift : F
  var : F
  var_sd : F

/-- The string `leader` of line 108. -/
def leader : Text := "/opt/chimaera/model/".toList

/-- Lines 107-118 of the container constructor: the name derived from the path of the
model file. `substr(leader.size())` drops the first `leader.size()` characters. -/
def shorten_model_name (temp_name : Text) : Text :=
  let lp := find temp_name leader
  let name := if lp = none then temp_name else temp_name.drop leader.length
  name.map (fun c => if c = '/' then '_' else c)

/-- The raw entry that lines 88-91 build from a record: each field goes through
`static_cast<float>`. -/
def entry_params {F : Type} (A : Arith F) (e : Model_Entry F) : PoreModelStateParams F :=
  { level_mean := A.toFloat e.level_mean, level_stdv := A.toFloat e.level_stdv,
    sd_mean := A.toFloat e.sd_mean, sd_stdv := A.toFloat e.sd_stdv }

/-- The body of the loop of lines 84-92: the record `curr` is stored at its rank. -/
def store_entry {F : Type} (al : Alphabet) (A : Arith F) (k : Nat)
    (states : List (PoreModelStateParams F)) (curr : Model_Entry F) :
    Except Err (List (PoreModelStateParams F)) :=
  let rank := al.kmer_rank curr.kmer k
  if rank < states.length then
    .ok (states.set rank (entry_params A curr))
  else .error Err.outOfRange

/-- The constructor `PoreModel::PoreModel(fast5::File*, strand, alphabet)` (lines 74-119),
on what the reader returns for the strand: the records `model` of `get_model`, the record
`params` of `get_model_parameters` and the path `model_file` of `get_model_file`. -/
def from_fast5 {F : Type} (al : Alphabet) (A : Arith F) (u : PoreModel F)
    (model : List (Model_Entry F)) (params : Model_Parameters F) (model_file : Text) :
    Except Err (PoreModel F) :=
  match model with
  | [] => .error Err.emptyModel
  | first :: _ =>
    let obj := { uninitialised u with k := first.kmer.length }
    let obj := { obj with
      states := resize obj.states (al.get_num_strings obj.k) (PoreModelStateParams.zero A) }
    if obj.states.length = model.length then
      match model.foldlM (store_entry al A obj.k) obj.states with
      | .error e => .error e
      | .ok states =>
        let obj := { obj with states := states }
        let obj := { obj with
          drift := params.drift, scale := params.scale, scale_sd := params.scale_sd,
          shift := params.shift, var := params.var, var_sd := params.var_sd }
        let obj := PoreModel.bake_gaussian_parameters A obj
        .ok { obj with name := shorten_model_name model_file }
    else .error Err.assertFailed

/-- The text of a data line of the writer (lines 132-133) before its `std::endl`: the
k-mer and the four raw parameters, separated by tabs. -/
def row_text {F : Type} (N : NumText F) (kmer : Text) (s : PoreModelStateParams F) : Text :=
  kmer ++ '\t' :: N.render s.level_mean ++ '\t' :: N.render s.level_stdv ++
    '\t' :: N.render s.sd_mean ++ '\t' :: N.render s.sd_stdv

/-- One data line of the writer (lines 132-133), ended by `std::endl`. -/
def write_row {F : Type} (N : NumText F) (kmer : Text) (s : PoreModelStateParams F) : Text :=
  row_text N kmer s ++ ['\n']

/-- The method `PoreModel::write` (lines 121-137): the characters written to the file. -/
def write {F : Type} (al : Alphabet) (N : NumText F) (m : PoreModel F) (modelname : Text) :
    Text :=
  let outmodelname := if modelname.isEmpty then m.name else modelname
  let header := "#model_name\t".toList ++ outmodelname ++ ['\n']
  let curr_kmer := List.replicate m.k (al.base 0)
  (m.states.foldl
    (fun (acc : Text × Text) s => (acc.1 ++ write_row N acc.2 s, al.lexicographic_next acc.2))
    (header, curr_kmer)).1

/-! ## Reading rows: notions used to state the claims -/

/-- The data rows of an input: the lines that line 52 does not skip. -/
def data_rows (lines : List Text) : List Text :=
  lines.filter (fun l => !is_header l)

/-- The stream from which the fields of the data row `line` are extracted. -/
def row_stream (model_line : Text) : IStream :=
  (read_model_name model_line []).1

/-- The k-mer that the constructor reads from the data row `line`. -/
def row_kmer (model_line : Text) : Text :=
  (extract_string (row_stream model_line) []).2

/-- The parameters that the constructor reads from the data row `line`, when the local
`params` starts from zero. -/
def row_params {F : Type} (A : Arith F) (N : NumText F) (model_line : Text) :
    PoreModelStateParams F :=
  (read_row A N (row_stream model_line) (PoreModelStateParams.zero A)).2.2

/-- The data row `line` is well formed: the five extractions succeed. -/
def row_ok {F : Type} (A : Arith F) (N : NumText F) (model_line : Text) : Bool :=
  (read_row A N (row_stream model_line) (PoreModelStateParams.zero A)).1.good

/-- The table after the rows are stored one after the other at the rank of their k-mer. -/
def place {F : Type} (al : Alphabet) (k : Nat) (rows : List (Text × PoreModelStateParams F))
    (init : List (PoreModelStateParams F)) : List (PoreModelStateParams F) :=
  rows.foldl (fun st r => st.set (al.kmer_rank r.1 k) r.2) init

/-- The member `name` after the lines are read, starting from `name`. -/
def name_after (lines : List Text) (name : Text) : Text :=
  lines.foldl (fun nm l => (read_model_name l nm).2) name

/-- The text rendering and re-parsing of the number `x` is exact: `<<` writes a token (not
empty, without white space or `#`), and `>>` reads `x` back from it when the token is
followed by white space or by the end of the line. -/
structure NumText.Exact {F : Type} (N : NumText F) (x : F) : Prop where
  nonempty : N.render x ≠ []
  token : ∀ c ∈ N.render x, isspace c = false ∧ c ≠ '#'
  read_render : ∀ rest : Text, (∀ c, rest.head? = some c → isspace c = true) →
    N.read (N.render x ++ rest) = some (x, rest)

/-- The four fields of a raw entry are rendered and re-parsed exactly. -/
def NumText.ExactParams {F : Type} (N : NumText F) (s : PoreModelStateParams F) : Prop :=
  N.Exact s.level_mean ∧ N.Exact s.level_stdv ∧ N.Exact s.sd_mean ∧ N.Exact s.sd_stdv

/-- The parameters that the constructor reads from the data row `line` when the local
`params` holds `junk` at its declaration. -/
def read_params {F : Type} (A : Arith F) (N : NumText F) (junk : PoreModelStateParams F)
    (model_line : Text) : PoreModelStateParams F :=
  (read_row A N (row_stream model_line) junk).2.2

/-- The data rows as the constructor reads them, in order: the k-mer of each row and the
parameters read in its iteration, the first row being the data row number `n`. -/
def rows_read {F : Type} (A : Arith F) (N : NumText F) (junk : Nat → PoreModelStateParams F) :
    Nat → List Text → List (Text × PoreModelStateParams F)
  | _, [] => []
  | n, x :: xs => (row_kmer x, read_params A N (junk n) x) :: rows_read A N junk (n + 1) xs

/-- Every data row has a k-mer whose rank, for k-mers of length `k`, lies inside a table
of `get_num_strings k` entries. -/
def ranks_inside (al : Alphabet) (k : Nat) (rows : List Text) : Bool :=
  rows.all (fun x => decide (al.kmer_rank (row_kmer x) k < al.get_num_strings k))

/-- The outcome of the text constructor as a function of the data rows of the input and
of the name read from it: without data rows the object is returned as it started; with
data rows, `k` is the length of the first k-mer, an out-of-range rank and a row count
other than `get_num_strings k` are the only failures, and the table holds the rows as
they were read, each at the rank of its k-mer. -/
def table_of_rows {F : Type} (al : Alphabet) (A : Arith F) (N : NumText F) (u : PoreModel F)
    (junk : Nat → PoreModelStateParams F) (rows : List Text) (name : Text) :
    Except Err (PoreModel F) :=
  match rows with
  | [] => .ok { uninitialised u with name := name }
  | l :: rs =>
    if ranks_inside al (row_kmer l).length (l :: rs) then
      if (l :: rs).length = al.get_num_strings (row_kmer l).length then
        .ok { uninitialised u with
          k := (row_kmer l).length
          states := place al (row_kmer l).length (rows_read A N junk 0 (l :: rs))
            (List.replicate (al.get_num_strings (row_kmer l).length)
              (PoreModelStateParams.zero A))
          name := name }
      else .error Err.assertFailed
    else .error Err.outOfRange

/-! ## Concrete instances, for the examples -/

/-- A number of the examples: a decimal literal, or an operation that is recorded and not
evaluated. -/
inductive SymNum where
  | lit (n : Nat)
  | add (a b : SymNum)
  | mul (a b : SymNum)
  | log (a : SymNum)
  | toFloat (a : SymNum)
deriving DecidableEq, Repr

/-- The arithmetic of the examples: every operation is recorded. -/
def symArith : Arith SymNum :=
  { zero := SymNum.lit 0, add := SymNum.add, mul := SymNum.mul, log := SymNum.log,
    toFloat := SymNum.toFloat }

/-- The value of a string of decimal digits. -/
def digits_value (ds : Text) : Nat :=
  ds.foldl (fun n c => 10 * n + (c.toNat - 48)) 0

/-- The number text of the examples: `>>` reads a non-empty run of decimal digits, `<<`
writes a literal in decimal. On digit strings followed by white space or the end of the
line this is what the stream operators of C++ do. -/
def symText : NumText SymNum where
  read t :=
    if (t.takeWhile Char.isDigit).isEmpty then none
    else some (SymNum.lit (digits_value (t.takeWhile Char.isDigit)), t.dropWhile Char.isDigit)
  render x :=
    match x with
    | SymNum.lit n => Nat.toDigits 10 n
    | _ => ['?']

/-- The rank of a symbol of the alphabet of the examples. -/
def dna_rank (c : Char) : Nat :=
  if c = 'C' then 1 else if c = 'G' then 2 else if c = 'T' then 3 else 0

/-- The symbol of a rank of the alphabet of the examples. -/
def dna_base (r : Nat) : Char :=
  if r = 0 then 'A' else if r = 1 then 'C' else if r = 2 then 'G' else 'T'

/-- The successor of a k-mer given last symbol first: add one with carry. -/
def dna_next_rev : Text → Text
  | [] => []
  | c :: cs =>
    if dna_rank c + 1 < 4 then dna_base (dna_rank c + 1) :: cs
    else dna_base 0 :: dna_next_rev cs

/-- Modelled from the spec: the alphabet of the examples, with the four symbols `A`, `C`,
`G`, `T` (the class `Alphabet` is not part of the sources). There are `4^k` k-mers, the
rank is the value of the k-mer as a base-4 numeral, and `lexicographic_next` adds one. -/
def dna : Alphabet where
  get_num_strings k := 4 ^ k
  kmer_rank str k :=
    (List.range k).foldl (fun r j => 4 * r + dna_rank (str.getD j (Char.ofNat 0))) 0
  base := dna_base
  lexicographic_next str := (dna_next_rev str.reverse).reverse

/-- The memory of the examples before a constructor runs. -/
def sym_memory : PoreModel SymNum :=
  { k := 0, states := [], scaled_params := [], shift := SymNum.lit 0, scale := SymNum.lit 0,
    drift := SymNum.lit 0, var := SymNum.lit 0, scale_sd := SymNum.lit 0,
    var_sd := SymNum.lit 0, is_scaled := false, name := [] }

/-- The lines of a table of 1-mers, with a name line and a column header. -/
def table_one : List Text :=
  ["#model_name\tr9".toList, "kmer\tlevel_mean\tlevel_stdv\tsd_mean\tsd_stdv".toList,
   "C\t5\t6\t7\t8".toList, "A\t1\t2\t3\t4".toList, "T\t4\t3\t2\t1".toList,
   "G\t9\t9\t9\t9".toList]

/-- The content of the local `params` of the examples: zero in every iteration. -/
def sym_junk : Nat → PoreModelStateParams SymNum :=
  fun _ => PoreModelStateParams.zero symArith

/-- The table that `table_one` loads to. -/
def model_one : PoreModel SymNum :=
  { sym_memory with
    k := 1
    states := [⟨.lit 1, .lit 2, .lit 3, .lit 4⟩, ⟨.lit 5, .lit 6, .lit 7, .lit 8⟩,
      ⟨.lit 9, .lit 9, .lit 9, .lit 9⟩, ⟨.lit 4, .lit 3, .lit 2, .lit 1⟩]
    name := "r9".toList }

/-- The records of a strand, for 1-mers. -/
def records_one : List (Model_Entry SymNum) :=
  [⟨"C".toList, .lit 5, .lit 6, .lit 7, .lit 8⟩, ⟨"A".toList, .lit 1, .lit 2, .lit 3, .lit 4⟩,
   ⟨"T".toList, .lit 4, .lit 3, .lit 2, .lit 1⟩, ⟨"G".toList, .lit 9, .lit 9, .lit 9, .lit 9⟩]

/-- The scaling parameters of a strand. -/
def parameters_one : Model_Parameters SymNum :=
  { drift := .lit 0, scale := .lit 1, scale_sd := .lit 1, shift := .lit 2, var := .lit 3,
    var_sd := .lit 1 }

/-- An entity whose name holds a line break followed by the text of a data row. -/
def model_two_lines : PoreModel SymNum :=
  { model_one with name := "r9\nA\t0\t0\t0\t0".toList }

/-- A path of a model file that does not begin with the leader and holds it further on. -/
def path_leader_inside : Text := "xx/opt/chimaera/model/abc".toList

/-- The memory of the examples with the byte of `is_scaled` set. -/
def sym_memory_scaled : PoreModel SymNum :=
  { sym_memory with is_scaled := true }

/-- A table of 1-mers with two rows that do not tokenize into five fields: the row of `A`
has three tokens, the row of `T` has a parameter that is not a number. -/
def table_torn : List Text :=
  ["C\t5\t6\t7\t8".toList, "A\t1\t2".toList, "T\tx\t3\t2\t1".toList, "G\t9\t9\t9\t9".toList]

/-- A table of 1-mers with a line that has white space before the header word `kmer`. -/
def table_indented_header : List Text :=
  ["#model_name\tr9".toList, " kmer\tlevel_mean\tlevel_stdv\tsd_mean\tsd_stdv".toList,
   "C\t5\t6\t7\t8".toList, "A\t1\t2\t3\t4".toList, "T\t4\t3\t2\t1".toList,
   "G\t9\t9\t9\t9".toList]

/-- A table of four rows of 1-mers in which `A` comes twice and `T` never. -/
def table_duplicate : List Text :=
  ["A\t1\t2\t3\t4".toList, "C\t5\t6\t7\t8".toList, "A\t4\t3\t2\t1".toList,
   "G\t9\t9\t9\t9".toList]

/-- The number of low bits of `n` that do not fit in a significand of 24 bits; `fuel`
bounds the search. -/
def float_shift : Nat → Nat → Nat
  | 0, _ => 0
  | fuel + 1, n => if n < 2 ^ 24 then 0 else float_shift fuel (n / 2) + 1

/-- The conversion `static_cast<float>` on a natural number held in a `double`: the
nearest number with 24 significant bits, a tie going to the even significand (binary32;
for numbers below `2^128`, which do not overflow). -/
def float_of_nat (n : Nat) : Nat :=
  let sh := float_shift 128 n
  let q := n / 2 ^ sh
  let r := n % 2 ^ sh
  let q2 := if 2 ^ sh < 2 * r ∨ (2 ^ sh = 2 * r ∧ q % 2 = 1) then q + 1 else q
  q2 * 2 ^ sh

/-- The arithmetic of the examples with the cast evaluated: `static_cast<float>` of a
literal is its binary32 rounding; the other operations are recorded. -/
def floatArith : Arith SymNum :=
  { symArith with
    toFloat := fun x =>
      match x with
      | SymNum.lit n => SymNum.lit (float_of_nat n)
      | a => SymNum.toFloat a }

/-- The records of a strand, for 1-mers, in which the record of `A` has the
`level_mean` `16777217 = 2^24 + 1`, a `double` that is not a `float`. -/
def records_wide : List (Model_Entry SymNum) :=
  [⟨"A".toList, .lit 16777217, .lit 2, .lit 3, .lit 4⟩,
   ⟨"C".toList, .lit 5, .lit 6, .lit 7, .lit 8⟩,
   ⟨"G".toList, .lit 9, .lit 9, .lit 9, .lit 9⟩,
   ⟨"T".toList, .lit 4, .lit 3, .lit 2, .lit 1⟩]

/-! ## Lemmas on the scaler -/

theorem length_resize {α : Type} (v : List α) (n : Nat) (d : α) :
    (resize v n d).length = n := by
  simp [resize]
  omega

namespace PoreModel

variable {F : Type}

theorem bake_fold (A : Arith F) (m : PoreModel F)
    (hlen : m.scaled_params.length = m.states.length) (n : Nat) (hn : n ≤ m.states.length) :
    (List.range n).foldl (bake_step A) m =
      { m with scaled_params :=
          (m.states.take n).map (scaled_of A m) ++ m.scaled_params.drop n } := by
  induction n with
  | zero => simp
  | succ n ih =>
    have hn1 : n < m.states.length := hn
    have hn2 : n < m.scaled_params.length := by omega
    rw [List.range_succ, List.foldl_append, ih (by omega)]
    simp only [List.foldl_cons, List.foldl_nil, bake_step]
    have e1 : m.states[n]? = some m.states[n] := List.getElem?_eq_getElem hn1
    have hl : ((m.states.take n).map (scaled_of A m)).length = n := by
      simp [List.length_take]; omega
    have e2 : ((m.states.take n).map (scaled_of A m) ++ m.scaled_params.drop n)[n]?
        = some m.scaled_params[n] := by
      rw [List.getElem?_append_right (by omega), hl, Nat.sub_self, List.getElem?_drop]
      simp
    simp only [e1, e2]
    congr 1
    rw [List.take_succ, e1]
    simp only [Option.toList, List.map_append, List.map_cons, List.map_nil, List.append_assoc]
    rw [List.set_append_right _ _ (by omega), hl, Nat.sub_self]
    rw [List.drop_eq_getElem_cons hn2]
    simp [scaled_of, List.set]

theorem bake_eq (A : Arith F) (m : PoreModel F) :
    bake_gaussian_parameters A m =
      { m with scaled_params := m.states.map (scaled_of A m), is_scaled := true } := by
  unfold bake_gaussian_parameters
  simp only
  rw [bake_fold A _ (by simp [length_resize]) _ (le_refl _)]
  have hd : List.drop m.states.length
      (resize m.scaled_params m.states.length (ScaledEmissionParams.zero A)) = [] :=
    List.drop_eq_nil_of_le (by rw [length_resize])
  simp only [List.take_length, hd, List.append_nil]
  rfl

/-! ## The Gaussian scaler and the mutator: claims -/

/-- C1 (Gaussian Scaler postcondition). After `bake_gaussian_parameters` the flag
`is_scaled` is true, `scaled_params` is as long as `states`, the raw table and the
coefficients are the ones given, and at every rank `i` the scaled entry has
`mean = level_mean * scale + shift`, `stdv = level_stdv * var` and
`log_stdv = log stdv`. -/
theorem bake_gaussian_parameters_post (A : Arith F) (m : PoreModel F) :
    (bake_gaussian_parameters A m).is_scaled = true ∧
    (bake_gaussian_parameters A m).scaled_params.length =
      (bake_gaussian_parameters A m).states.length ∧
    (bake_gaussian_parameters A m).states = m.states ∧
    (bake_gaussian_parameters A m).scale = m.scale ∧
    (bake_gaussian_parameters A m).shift = m.shift ∧
    (bake_gaussian_parameters A m).var = m.var ∧
    ∀ (i : Nat) (s : PoreModelStateParams F), m.states[i]? = some s →
      ∃ g, (bake_gaussian_parameters A m).scaled_params[i]? = some g ∧
        g.mean = A.add (A.mul s.level_mean m.scale) m.shift ∧
        g.stdv = A.mul s.level_stdv m.var ∧
        g.log_stdv = A.log g.stdv := by
  rw [bake_eq]
  refine ⟨rfl, by simp, rfl, rfl, rfl, rfl, ?_⟩
  intro i s hs
  exact ⟨scaled_of A m s, by simp [List.getElem?_map, hs], rfl, rfl, rfl⟩

/-- C1, on the example of the spec, over the real numbers: the one-entry table
`level_mean = 80`, `level_stdv = 2` with `scale = 1`, `shift = 0`, `var = 1` is scaled to
`mean = 80`, `stdv = 2`, `log_stdv = ln 2`. -/
theorem bake_gaussian_parameters_post_witness :
    ∃ g : ScaledEmissionParams ℝ,
      (bake_gaussian_parameters (fieldArith Real.log id)
        { k := 0, states := [⟨80, 2, 0, 0⟩], scaled_params := [], shift := 0, scale := 1,
          drift := 0, var := 1, scale_sd := 1, var_sd := 1, is_scaled := false,
          name := [] }).scaled_params[0]? = some g ∧
      g.mean = 80 ∧ g.stdv = 2 ∧ g.log_stdv = Real.log 2 := by
  obtain ⟨g, hg, h1, h2, h3⟩ :=
    (bake_gaussian_parameters_post (fieldArith Real.log id)
      { k := 0, states := [⟨80, 2, 0, 0⟩], scaled_params := [], shift := 0, scale := 1,
        drift := 0, var := 1, scale_sd := 1, var_sd := 1, is_scaled := false,
        name := [] }).2.2.2.2.2.2 0 ⟨80, 2, 0, 0⟩ rfl
  have e1 : g.mean = 80 := by rw [h1]; simp [fieldArith]
  have e2 : g.stdv = 2 := by rw [h2]; simp [fieldArith]
  exact ⟨g, hg, e1, e2, by rw [h3, e2]; rfl⟩

/-- C2 (mutation consistency). On an entity with `is_scaled = true`, `update_states`
with any replacement table leaves `is_scaled` true, makes `states` the replacement table,
keeps the coefficients, and leaves `scaled_params` as long as `states` with, at every rank,
the entry computed from the new table and the coefficients of the entity. -/
theorem update_states_rebakes (A : Arith F) (m : PoreModel F)
    (newTable : List (PoreModelStateParams F)) (h : m.is_scaled = true) :
    (update_states A m newTable).is_scaled = true ∧
    (update_states A m newTable).states = newTable ∧
    (update_states A m newTable).scaled_params.length =
      (update_states A m newTable).states.length ∧
    (update_states A m newTable).scale = m.scale ∧
    (update_states A m newTable).shift = m.shift ∧
    (update_states A m newTable).var = m.var ∧
    ∀ (i : Nat) (s : PoreModelStateParams F), newTable[i]? = some s →
      (update_states A m newTable).scaled_params[i]? =
        some { mean := A.add (A.mul s.level_mean m.scale) m.shift
               stdv := A.mul s.level_stdv m.var
               log_stdv := A.log (A.mul s.level_stdv m.var) } := by
  have e : update_states A m newTable =
      bake_gaussian_parameters A { m with states := newTable } := by
    simp [update_states, h]
  rw [e, bake_eq]
  refine ⟨rfl, rfl, by simp, rfl, rfl, rfl, ?_⟩
  intro i s hs
  simp [List.getElem?_map, hs, scaled_of]

/-- C2 at a concrete scaled entity over the reals: a stale one-entry cache is replaced by
the entry computed from the new table. -/
theorem update_states_rebakes_witness :
    (update_states (fieldArith Real.log id)
      { k := 0, states := [⟨80, 2, 0, 0⟩], scaled_params := [⟨80, 2, Real.log 2⟩],
        shift := 0, scale := 1, drift := 0, var := 1, scale_sd := 1, var_sd := 1,
        is_scaled := true, name := [] }
      [⟨90, 3, 0, 0⟩]).scaled_params[0]? = some ⟨90 * 1 + 0, 3 * 1, Real.log (3 * 1)⟩ :=
  (update_states_rebakes (fieldArith Real.log id)
      { k := 0, states := [⟨80, 2, 0, 0⟩], scaled_params := [⟨80, 2, Real.log 2⟩],
        shift := 0, scale := 1, drift := 0, var := 1, scale_sd := 1, var_sd := 1,
        is_scaled := true, name := [] }
      [⟨90, 3, 0, 0⟩] rfl).2.2.2.2.2.2 0 ⟨90, 3, 0, 0⟩ rfl

/-- C3 (scaling idempotence). Invoking `bake_gaussian_parameters` twice in a row yields
the same entity, in every field, as invoking it once. -/
theorem bake_gaussian_parameters_idempotent (A : Arith F) (m : PoreModel F) :
    bake_gaussian_parameters A (bake_gaussian_parameters A m) =
      bake_gaussian_parameters A m := by
  rw [bake_eq A m, bake_eq]
  rfl

end PoreModel

/-! ## Lemmas on the constructors -/

theorem resize_nil {α : Type} (n : Nat) (d : α) : resize [] n d = List.replicate n d := by
  simp [resize]

theorem length_place {F : Type} (al : Alphabet) (k : Nat)
    (rows : List (Text × PoreModelStateParams F)) (init : List (PoreModelStateParams F)) :
    (place al k rows init).length = init.length := by
  induction rows generalizing init with
  | nil => rfl
  | cons r rs ih => simp [place] at ih ⊢; rw [ih]; simp

theorem place_getElem?_of_ne {F : Type} (al : Alphabet) (k : Nat)
    (rows : List (Text × PoreModelStateParams F)) (init : List (PoreModelStateParams F))
    (i : Nat) (h : ∀ r ∈ rows, al.kmer_rank r.1 k ≠ i) :
    (place al k rows init)[i]? = init[i]? := by
  induction rows generalizing init with
  | nil => rfl
  | cons r rs ih =>
    have h1 : al.kmer_rank r.1 k ≠ i := h r (List.mem_cons_self _ _)
    have := ih (init.set (al.kmer_rank r.1 k) r.2) (fun r hr => h r (List.mem_cons_of_mem _ hr))
    simp only [place, List.foldl_cons] at this ⊢
    rw [this, List.getElem?_set_ne h1]

theorem place_getElem? {F : Type} (al : Alphabet) (k : Nat)
    (rows : List (Text × PoreModelStateParams F)) (init : List (PoreModelStateParams F))
    (hd : rows.Pairwise (fun a b => al.kmer_rank a.1 k ≠ al.kmer_rank b.1 k))
    (r : Text × PoreModelStateParams F) (hr : r ∈ rows)
    (hlt : al.kmer_rank r.1 k < init.length) :
    (place al k rows init)[al.kmer_rank r.1 k]? = some r.2 := by
  induction rows generalizing init with
  | nil => simp at hr
  | cons a rs ih =>
    rw [List.pairwise_cons] at hd
    rcases List.mem_cons.1 hr with rfl | hmem
    · have := place_getElem?_of_ne al k rs (init.set (al.kmer_rank r.1 k) r.2)
        (al.kmer_rank r.1 k) (fun b hb => (hd.1 b hb).symm)
      simp only [place, List.foldl_cons] at this ⊢
      rw [this, List.getElem?_set_self hlt]
    · have := ih (init.set (al.kmer_rank a.1 k) a.2) hd.2 hmem (by simpa using hlt)
      simpa only [place, List.foldl_cons] using this

theorem store_fold_ok {F : Type} (al : Alphabet) (A : Arith F) (k : Nat)
    (model : List (Model_Entry F)) (init : List (PoreModelStateParams F))
    (h : ∀ e ∈ model, al.kmer_rank e.kmer k < init.length) :
    model.foldlM (store_entry al A k) init =
      Except.ok (place al k (model.map (fun e => (e.kmer, entry_params A e))) init) := by
  induction model generalizing init with
  | nil => rfl
  | cons e es ih =>
    have h1 := h e (List.mem_cons_self _ _)
    rw [List.foldlM_cons]
    simp only [store_entry, h1, if_true]
    have := ih (init.set (al.kmer_rank e.kmer k) (entry_params A e))
      (fun x hx => by simpa using h x (List.mem_cons_of_mem _ hx))
    simp only [place, List.map_cons, List.foldl_cons] at this ⊢
    exact this

theorem from_fast5_ok {F : Type} (al : Alphabet) (A : Arith F) (u : PoreModel F)
    (first : Model_Entry F) (rest : List (Model_Entry F)) (params : Model_Parameters F)
    (model_file : Text)
    (hlen : (first :: rest).length = al.get_num_strings first.kmer.length)
    (hrange : ∀ e ∈ first :: rest,
      al.kmer_rank e.kmer first.kmer.length < al.get_num_strings first.kmer.length) :
    from_fast5 al A u (first :: rest) params model_file =
      Except.ok
        { PoreModel.bake_gaussian_parameters A
            { uninitialised u with
              k := first.kmer.length
              states := place al first.kmer.length
                ((first :: rest).map (fun e => (e.kmer, entry_params A e)))
                (List.replicate (al.get_num_strings first.kmer.length)
                  (PoreModelStateParams.zero A))
              drift := params.drift, scale := params.scale, scale_sd := params.scale_sd,
              shift := params.shift, var := params.var, var_sd := params.var_sd } with
          name := shorten_model_name model_file } := by
  have hr : ∀ e ∈ first :: rest, al.kmer_rank e.kmer first.kmer.length <
      (List.replicate (al.get_num_strings first.kmer.length)
        (PoreModelStateParams.zero A)).length := by
    simpa using hrange
  have hfold := store_fold_ok al A first.kmer.length (first :: rest) _ hr
  simp only [from_fast5, uninitialised, resize_nil, List.length_replicate]
  rw [if_pos hlen.symm, hfold]

theorem from_fast5_count_ne {F : Type} (al : Alphabet) (A : Arith F) (u : PoreModel F)
    (first : Model_Entry F) (rest : List (Model_Entry F)) (params : Model_Parameters F)
    (model_file : Text)
    (hlen : (first :: rest).length ≠ al.get_num_strings first.kmer.length) :
    from_fast5 al A u (first :: rest) params model_file = Except.error Err.assertFailed := by
  simp only [from_fast5, uninitialised, resize_nil, List.length_replicate]
  rw [if_neg (fun h => hlen h.symm)]

theorem find_leader_append (rest : Text) : find (leader ++ rest) leader = some 0 := by
  have h : leader.isPrefixOf (leader ++ rest) = true :=
    List.isPrefixOf_iff_prefix.2 (List.prefix_append _ _)
  have hc : leader ++ rest = '/' :: ("opt/chimaera/model/".toList ++ rest) := rfl
  rw [hc] at h ⊢
  simp only [find, h, if_true]

theorem shorten_model_name_leader (rest : Text) :
    shorten_model_name (leader ++ rest) = rest.map (fun c => if c = '/' then '_' else c) := by
  simp only [shorten_model_name, find_leader_append]
  simp

theorem from_fast5_name {F : Type} (al : Alphabet) (A : Arith F) (u : PoreModel F)
    (model : List (Model_Entry F)) (params : Model_Parameters F) (model_file : Text)
    (m : PoreModel F) (h : from_fast5 al A u model params model_file = Except.ok m) :
    m.name = shorten_model_name model_file := by
  unfold from_fast5 at h
  split at h
  · cases h
  · simp only at h
    split at h
    · split at h
      · cases h
      · cases h; rfl
    · cases h

theorem extract_string_stream (st : IStream) (t t2 : Text) :
    (extract_string st t).1 = (extract_string st t2).1 := by
  unfold extract_string
  split
  · split <;> rfl
  · rfl

theorem extract_string_good (st : IStream) (t : Text)
    (h : (extract_string st t).1.good = true) :
    st.good = true ∧ ∀ t2, extract_string st t2 = extract_string st t := by
  unfold extract_string at h ⊢
  split at h
  · rename_i hg
    refine ⟨hg, fun t2 => ?_⟩
    simp only [hg, if_true]
    split at h
    · simp at h
    · rfl
  · rename_i hg
    exact absurd h hg

theorem extract_num_good {F : Type} (A : Arith F) (N : NumText F) (st : IStream) (t : F)
    (h : (extract_num A N st t).1.good = true) :
    st.good = true ∧ ∀ t2, extract_num A N st t2 = extract_num A N st t := by
  unfold extract_num at h ⊢
  split at h
  · rename_i hg
    refine ⟨hg, fun t2 => ?_⟩
    simp only [hg, if_true]
    split at h
    · simp at h
    · split at h
      · rename_i hr
        simp only [hr]
      · simp at h
  · rename_i hg
    exact absurd h hg

theorem read_model_name_stream (l nm : Text) : (read_model_name l nm).1 = row_stream l := by
  unfold row_stream read_model_name
  simp only
  split
  · exact extract_string_stream _ _ _
  · rfl

theorem read_row_kmer {F : Type} (A : Arith F) (N : NumText F) (l nm : Text)
    (junk : PoreModelStateParams F) :
    (read_row A N (read_model_name l nm).1 junk).2.1 = row_kmer l := by
  rw [read_model_name_stream]
  rfl

theorem read_row_good {F : Type} (A : Arith F) (N : NumText F) (strm : IStream)
    (junk junk2 : PoreModelStateParams F) (h : (read_row A N strm junk).1.good = true) :
    read_row A N strm junk2 = read_row A N strm junk := by
  unfold read_row at h ⊢
  simp only at h ⊢
  obtain ⟨g3, e4⟩ := extract_num_good A N _ _ h
  obtain ⟨g2, e3⟩ := extract_num_good A N _ _ g3
  obtain ⟨g1, e2⟩ := extract_num_good A N _ _ g2
  obtain ⟨g0, e1⟩ := extract_num_good A N _ _ g1
  rw [e1 junk2.level_mean, e2 junk2.level_stdv, e3 junk2.sd_mean, e4 junk2.sd_stdv]

theorem read_row_of_ok {F : Type} (A : Arith F) (N : NumText F) (l nm : Text)
    (junk : PoreModelStateParams F) (h : row_ok A N l = true) :
    (read_row A N (read_model_name l nm).1 junk).2.2 = row_params A N l := by
  rw [read_model_name_stream]
  unfold row_params
  rw [read_row_good A N _ _ junk h]

/-- The state of the loop after more lines, once the first data row has been read. -/
theorem fold_rest {F : Type} (al : Alphabet) (A : Arith F) (N : NumText F)
    (junk : Nat → PoreModelStateParams F) (lines : List Text) (st : LoadState F)
    (hf : st.firstKmer = false)
    (h : ∀ l ∈ data_rows lines, row_ok A N l = true ∧
      al.kmer_rank (row_kmer l) st.obj.k < st.obj.states.length) :
    lines.foldlM (load_line al A N junk) st =
      Except.ok
        { obj := { st.obj with
            states := place al st.obj.k
              ((data_rows lines).map (fun l => (row_kmer l, row_params A N l))) st.obj.states
            name := name_after lines st.obj.name }
          firstKmer := false
          ninserted := st.ninserted + (data_rows lines).length } := by
  induction lines generalizing st with
  | nil =>
    cases st
    simp only at hf
    subst hf
    rfl
  | cons l ls ih =>
    obtain ⟨obj, fk, n⟩ := st
    simp only at hf h
    subst hf
    rw [List.foldlM_cons]
    by_cases hh : is_header l = true
    · have e : load_line al A N junk ⟨obj, false, n⟩ l =
          Except.ok ⟨{ obj with name := (read_model_name l obj.name).2 }, false, n⟩ := by
        simp [load_line, hh]
      have hd : data_rows (l :: ls) = data_rows ls := by
        simp [data_rows, hh]
      rw [e, hd]
      rw [hd] at h
      exact ih ⟨{ obj with name := (read_model_name l obj.name).2 }, false, n⟩ rfl h
    · have hh2 : is_header l = false := by simpa using hh
      have hd : data_rows (l :: ls) = l :: data_rows ls := by
        simp [data_rows, hh2]
      rw [hd] at h ⊢
      obtain ⟨hok, hrk⟩ := h l (List.mem_cons_self _ _)
      have e : load_line al A N junk ⟨obj, false, n⟩ l =
          Except.ok
            ⟨{ obj with
                states := obj.states.set (al.kmer_rank (row_kmer l) obj.k) (row_params A N l),
                name := (read_model_name l obj.name).2 }, false, n + 1⟩ := by
        simp only [load_line, hh2, read_row_kmer, read_row_of_ok A N l _ _ hok]
        simp [hrk]
      rw [e]
      have := ih ⟨{ obj with
                states := obj.states.set (al.kmer_rank (row_kmer l) obj.k) (row_params A N l),
                name := (read_model_name l obj.name).2 }, false, n + 1⟩ rfl
        (fun x hx => by
          have hx2 := h x (List.mem_cons_of_mem _ hx)
          simpa using hx2)
      simp only [bind, Except.bind] at this ⊢
      rw [this]
      simp only [place, name_after, List.map_cons, List.foldl_cons, List.length_cons]
      congr 2
      omega

theorem fold_headers {F : Type} (al : Alphabet) (A : Arith F) (N : NumText F)
    (junk : Nat → PoreModelStateParams F) (lines : List Text) (st : LoadState F)
    (h : data_rows lines = []) :
    lines.foldlM (load_line al A N junk) st =
      Except.ok { st with obj := { st.obj with name := name_after lines st.obj.name } } := by
  induction lines generalizing st with
  | nil => rfl
  | cons l ls ih =>
    have hh : is_header l = true := by
      by_contra hc
      simp [data_rows, hc] at h
    have hd : data_rows ls = [] := by
      simpa [data_rows, hh] using h
    have e : load_line al A N junk st l =
        Except.ok { st with obj := { st.obj with name := (read_model_name l st.obj.name).2 } } := by
      simp [load_line, hh]
    rw [List.foldlM_cons, e]
    exact ih _ hd

theorem fold_first {F : Type} (al : Alphabet) (A : Arith F) (N : NumText F)
    (junk : Nat → PoreModelStateParams F) (lines : List Text) (st : LoadState F)
    (l : Text) (rs : List Text) (hd : data_rows lines = l :: rs)
    (hf : st.firstKmer = true) (hs : st.obj.states = [])
    (h : ∀ x ∈ l :: rs, row_ok A N x = true ∧
      al.kmer_rank (row_kmer x) (row_kmer l).length < al.get_num_strings (row_kmer l).length) :
    lines.foldlM (load_line al A N junk) st =
      Except.ok
        { obj := { st.obj with
            k := (row_kmer l).length
            states := place al (row_kmer l).length
              ((l :: rs).map (fun x => (row_kmer x, row_params A N x)))
              (List.replicate (al.get_num_strings (row_kmer l).length)
                (PoreModelStateParams.zero A))
            name := name_after lines st.obj.name }
          firstKmer := false
          ninserted := st.ninserted + (l :: rs).length } := by
  induction lines generalizing st with
  | nil => simp [data_rows] at hd
  | cons x xs ih =>
    obtain ⟨obj, fk, n⟩ := st
    simp only at hf hs
    subst hf
    rw [List.foldlM_cons]
    by_cases hh : is_header x = true
    · have e : load_line al A N junk ⟨obj, true, n⟩ x =
          Except.ok ⟨{ obj with name := (read_model_name x obj.name).2 }, true, n⟩ := by
        simp [load_line, hh]
      have hd2 : data_rows xs = l :: rs := by
        simpa [data_rows, hh] using hd
      rw [e]
      exact ih ⟨{ obj with name := (read_model_name x obj.name).2 }, true, n⟩ hd2 rfl hs
    · have hh2 : is_header x = false := by simpa using hh
      have hd2 : x :: data_rows xs = l :: rs := by
        simpa [data_rows, hh2] using hd
      obtain ⟨rfl, hrs⟩ := List.cons.inj hd2
      obtain ⟨hok, hrk⟩ := h x (List.mem_cons_self _ _)
      have e : load_line al A N junk ⟨obj, true, n⟩ x =
          Except.ok
            ⟨{ obj with
                k := (row_kmer x).length
                states := (List.replicate (al.get_num_strings (row_kmer x).length)
                  (PoreModelStateParams.zero A)).set
                    (al.kmer_rank (row_kmer x) (row_kmer x).length) (row_params A N x),
                name := (read_model_name x obj.name).2 }, false, n + 1⟩ := by
        simp only [load_line, hh2, read_row_kmer, read_row_of_ok A N x _ _ hok, hs, resize_nil]
        simp [hrk]
      rw [e]
      have := fold_rest al A N junk xs ⟨{ obj with
                k := (row_kmer x).length
                states := (List.replicate (al.get_num_strings (row_kmer x).length)
                  (PoreModelStateParams.zero A)).set
                    (al.kmer_rank (row_kmer x) (row_kmer x).length) (row_params A N x),
                name := (read_model_name x obj.name).2 }, false, n + 1⟩ rfl
        (fun y hy => by
          have hy2 := h y (List.mem_cons_of_mem _ (hrs ▸ hy))
          simpa using hy2)
      simp only [bind, Except.bind] at this ⊢
      rw [this, hrs]
      simp only [place, name_after, List.map_cons, List.foldl_cons, List.length_cons]
      congr 2
      omega

theorem from_file_ok {F : Type} (al : Alphabet) (A : Arith F) (N : NumText F)
    (u : PoreModel F) (junk : Nat → PoreModelStateParams F) (lines : List Text)
    (l : Text) (rs : List Text) (hd : data_rows lines = l :: rs)
    (h : ∀ x ∈ l :: rs, row_ok A N x = true ∧
      al.kmer_rank (row_kmer x) (row_kmer l).length < al.get_num_strings (row_kmer l).length)
    (hcount : (l :: rs).length = al.get_num_strings (row_kmer l).length) :
    from_file al A N u junk lines =
      Except.ok
        { uninitialised u with
          k := (row_kmer l).length
          states := place al (row_kmer l).length
            ((l :: rs).map (fun x => (row_kmer x, row_params A N x)))
            (List.replicate (al.get_num_strings (row_kmer l).length)
              (PoreModelStateParams.zero A))
          name := name_after lines [] } := by
  unfold from_file
  rw [fold_first al A N junk lines _ l rs hd rfl rfl h]
  simp only [length_place, List.length_replicate, Nat.zero_add]
  rw [if_pos hcount]
  rfl

theorem from_file_no_rows {F : Type} (al : Alphabet) (A : Arith F) (N : NumText F)
    (u : PoreModel F) (junk : Nat → PoreModelStateParams F) (lines : List Text)
    (hd : data_rows lines = []) :
    from_file al A N u junk lines =
      Except.ok { uninitialised u with name := name_after lines [] } := by
  unfold from_file
  rw [fold_headers al A N junk lines _ hd]
  rfl

/-- What a step of the loop on a data row leaves, when it does not fail. -/
theorem load_line_data {F : Type} (al : Alphabet) (A : Arith F) (N : NumText F)
    (junk : Nat → PoreModelStateParams F) (st st1 : LoadState F) (l : Text)
    (hh : is_header l = false) (h : load_line al A N junk st l = Except.ok st1) :
    st1.firstKmer = false ∧ st1.ninserted = st.ninserted + 1 ∧
    (st.firstKmer = false →
      st1.obj.k = st.obj.k ∧ st1.obj.states.length = st.obj.states.length) ∧
    (st.firstKmer = true → st.obj.states = [] →
      st1.obj.k = (row_kmer l).length ∧
      st1.obj.states.length = al.get_num_strings (row_kmer l).length) := by
  obtain ⟨obj, fk, n⟩ := st
  cases fk with
  | false =>
    simp only [load_line, hh, read_row_kmer, Bool.false_eq_true, if_false] at h
    split at h
    · cases h
      exact ⟨rfl, rfl, fun _ => ⟨rfl, by simp⟩, fun hf => by simp at hf⟩
    · cases h
  | true =>
    simp only [load_line, hh, read_row_kmer, Bool.false_eq_true, if_false, if_true] at h
    split at h
    · cases h
      refine ⟨rfl, rfl, fun hf => by simp at hf, fun _ hs => ?_⟩
      simp only at hs
      simp [hs, resize_nil]
    · cases h

theorem load_line_header {F : Type} (al : Alphabet) (A : Arith F) (N : NumText F)
    (junk : Nat → PoreModelStateParams F) (st : LoadState F) (l : Text)
    (hh : is_header l = true) :
    load_line al A N junk st l =
      Except.ok { st with obj := { st.obj with name := (read_model_name l st.obj.name).2 } } := by
  simp [load_line, hh]

theorem fold_count_rest {F : Type} (al : Alphabet) (A : Arith F) (N : NumText F)
    (junk : Nat → PoreModelStateParams F) (lines : List Text) (st st2 : LoadState F)
    (hf : st.firstKmer = false)
    (h : lines.foldlM (load_line al A N junk) st = Except.ok st2) :
    st2.ninserted = st.ninserted + (data_rows lines).length ∧
    st2.obj.k = st.obj.k ∧ st2.obj.states.length = st.obj.states.length := by
  induction lines generalizing st with
  | nil => cases h; simp [data_rows]
  | cons l ls ih =>
    rw [List.foldlM_cons] at h
    by_cases hh : is_header l = true
    · rw [load_line_header al A N junk st l hh] at h
      have := ih _ (by simpa using hf) h
      simpa [data_rows, hh] using this
    · have hh2 : is_header l = false := by simpa using hh
      cases e : load_line al A N junk st l with
      | error err => rw [e] at h; cases h
      | ok st1 =>
        rw [e] at h
        obtain ⟨h1, h2, h3, -⟩ := load_line_data al A N junk st st1 l hh2 e
        obtain ⟨h4, h5⟩ := h3 hf
        have := ih st1 h1 h
        simp only [data_rows, List.filter_cons, hh2, Bool.not_false, if_true,
          List.length_cons] at this ⊢
        refine ⟨?_, ?_, ?_⟩
        · rw [this.1, h2]; omega
        · rw [this.2.1, h4]
        · rw [this.2.2, h5]

theorem fold_count_first {F : Type} (al : Alphabet) (A : Arith F) (N : NumText F)
    (junk : Nat → PoreModelStateParams F) (lines : List Text) (st st2 : LoadState F)
    (l : Text) (rs : List Text) (hd : data_rows lines = l :: rs)
    (hf : st.firstKmer = true) (hs : st.obj.states = [])
    (h : lines.foldlM (load_line al A N junk) st = Except.ok st2) :
    st2.ninserted = st.ninserted + (l :: rs).length ∧
    st2.obj.k = (row_kmer l).length ∧
    st2.obj.states.length = al.get_num_strings (row_kmer l).length := by
  induction lines generalizing st with
  | nil => simp [data_rows] at hd
  | cons x xs ih =>
    rw [List.foldlM_cons] at h
    by_cases hh : is_header x = true
    · rw [load_line_header al A N junk st x hh] at h
      have hd2 : data_rows xs = l :: rs := by
        simpa [data_rows, hh] using hd
      have h2 : xs.foldlM (load_line al A N junk)
          { st with obj := { st.obj with name := (read_model_name x st.obj.name).2 } } =
          Except.ok st2 := h
      have h3 := ih { st with obj := { st.obj with name := (read_model_name x st.obj.name).2 } }
        hd2 hf hs h2
      exact h3
    · have hh2 : is_header x = false := by simpa using hh
      have hd2 : x :: data_rows xs = l :: rs := by
        simpa [data_rows, hh2] using hd
      obtain ⟨rfl, hrs⟩ := List.cons.inj hd2
      cases e : load_line al A N junk st x with
      | error err => rw [e] at h; cases h
      | ok st1 =>
        rw [e] at h
        obtain ⟨h1, h2, -, h3⟩ := load_line_data al A N junk st st1 x hh2 e
        obtain ⟨h4, h5⟩ := h3 hf hs
        obtain ⟨h6, h7, h8⟩ := fold_count_rest al A N junk xs st1 st2 h1 h
        refine ⟨?_, ?_, ?_⟩
        · rw [h6, h2, hrs]; simp only [List.length_cons]; omega
        · rw [h7, h4]
        · rw [h8, h5]

/-- The load of an input whose data rows list each k-mer of length `k` once succeeds and
stores every row at the rank of its k-mer. -/
theorem rank_placement_core {F : Type} (al : Alphabet) (A : Arith F) (N : NumText F)
    (u : PoreModel F) (junk : Nat → PoreModelStateParams F) (k : Nat) (lines : List Text)
    (hal : al.Enumerates k)
    (hwf : ∀ l ∈ data_rows lines, row_ok A N l = true)
    (hperm : ((data_rows lines).map row_kmer).Perm
      ((List.range (al.get_num_strings k)).map (al.kmer_at k))) :
    ∃ m, from_file al A N u junk lines = Except.ok m ∧ m.k = k ∧
      m.states.length = al.get_num_strings k ∧
      ∀ l ∈ data_rows lines,
        m.states[al.kmer_rank (row_kmer l) k]? = some (row_params A N l) := by
  -- every row k-mer is an enumerated k-mer
  have hmem : ∀ x ∈ data_rows lines, ∃ i, i < al.get_num_strings k ∧ row_kmer x = al.kmer_at k i := by
    intro x hx
    have : row_kmer x ∈ (List.range (al.get_num_strings k)).map (al.kmer_at k) :=
      hperm.subset (List.mem_map_of_mem _ hx)
    obtain ⟨i, hi, e⟩ := List.mem_map.1 this
    exact ⟨i, List.mem_range.1 hi, e.symm⟩
  have hlen : (data_rows lines).length = al.get_num_strings k := by
    have := hperm.length_eq
    simpa using this
  cases hd : data_rows lines with
  | nil =>
    rw [hd] at hlen
    have := hal.count_pos
    simp at hlen
    omega
  | cons l rs =>
    obtain ⟨i0, hi0, e0⟩ := hmem l (by rw [hd]; exact List.mem_cons_self _ _)
    have hk : (row_kmer l).length = k := by rw [e0]; exact hal.length_kmer i0 hi0
    have hrange : ∀ x ∈ l :: rs, row_ok A N x = true ∧
        al.kmer_rank (row_kmer x) (row_kmer l).length <
          al.get_num_strings (row_kmer l).length := by
      intro x hx
      rw [← hd] at hx
      obtain ⟨i, hi, e⟩ := hmem x hx
      refine ⟨hwf x hx, ?_⟩
      rw [hk, e, hal.rank_kmer i hi]
      exact hi
    have hcount : (l :: rs).length = al.get_num_strings (row_kmer l).length := by
      rw [← hd, hlen, hk]
    refine ⟨_, from_file_ok al A N u junk lines l rs hd hrange hcount, hk, ?_, ?_⟩
    · simp [length_place, hk]
    · intro x hx
      have hnd : ((l :: rs).map (fun x => (row_kmer x, row_params A N x))).Pairwise
          (fun a b => al.kmer_rank a.1 k ≠ al.kmer_rank b.1 k) := by
        rw [List.pairwise_map]
        have h1 : ((data_rows lines).map (fun x => al.kmer_rank (row_kmer x) k)).Perm
            (List.range (al.get_num_strings k)) := by
          have h2 := hperm.map (fun s => al.kmer_rank s k)
          rw [List.map_map, List.map_map] at h2
          have h3 : (List.range (al.get_num_strings k)).map
              ((fun s => al.kmer_rank s k) ∘ al.kmer_at k) = List.range (al.get_num_strings k) := by
            conv_rhs => rw [← List.map_id (List.range (al.get_num_strings k))]
            apply List.map_congr_left
            intro i hi
            simpa using hal.rank_kmer i (List.mem_range.1 hi)
          rw [h3] at h2
          exact h2
        have h4 : ((data_rows lines).map (fun x => al.kmer_rank (row_kmer x) k)).Nodup :=
          h1.nodup_iff.2 (List.nodup_range _)
        rw [hd] at h4
        exact (List.pairwise_map.1 h4)
      have := place_getElem? al k _ (List.replicate (al.get_num_strings k)
          (PoreModelStateParams.zero A)) hnd (row_kmer x, row_params A N x)
          (List.mem_map_of_mem _ hx)
          (by
            have := (hrange x hx).2
            rw [hk] at this
            simpa using this)
      simpa [hk] using this

/-! ## Lemmas on the instances of the examples -/

theorem isspace_not_digit (c : Char) (h : isspace c = true) : c.isDigit = false := by
  simp only [isspace, Bool.or_eq_true, beq_iff_eq] at h
  rcases h with ((((rfl | rfl) | rfl) | rfl) | rfl) | rfl <;> decide

theorem symText_read_digit (d : Char) (hd : d.isDigit = true) (rest : Text)
    (h : ∀ c, rest.head? = some c → isspace c = true) :
    symText.read (d :: rest) = some (SymNum.lit (d.toNat - 48), rest) := by
  cases rest with
  | nil => simp [symText, hd, digits_value]
  | cons c cs =>
    have hc : c.isDigit = false := isspace_not_digit c (h c rfl)
    simp [symText, hd, hc, digits_value]

theorem symText_exact_digit (n : Nat) (hn : n < 10) : symText.Exact (SymNum.lit n) := by
  have hr : symText.render (SymNum.lit n) = [Nat.digitChar n] := by
    simp only [symText]
    interval_cases n <;> rfl
  refine ⟨by rw [hr]; simp, ?_, ?_⟩
  · rw [hr]
    intro c hc
    simp only [List.mem_singleton] at hc
    subst hc
    interval_cases n <;> decide
  · intro rest h
    rw [hr]
    have := symText_read_digit (Nat.digitChar n) (by interval_cases n <;> decide) rest h
    simp only [List.singleton_append]
    rw [this]
    interval_cases n <;> rfl

theorem dna_enumerates_one : dna.Enumerates 1 :=
  ⟨by decide, by decide, by decide⟩

theorem dna_textSafe_one : dna.TextSafe 1 :=
  ⟨by decide, by decide⟩

/-! ## Lemmas on the writer -/

theorem write_row_eq {F : Type} (N : NumText F) (kmer : Text) (s : PoreModelStateParams F) :
    write_row N kmer s = row_text N kmer s ++ ['\n'] := rfl

theorem write_fold {F : Type} (al : Alphabet) (N : NumText F) (start : Text)
    (states : List (PoreModelStateParams F)) (acc : Text) (j : Nat) :
    (states.foldl
      (fun (a : Text × Text) s => (a.1 ++ write_row N a.2 s, al.lexicographic_next a.2))
      (acc, al.lexicographic_next^[j] start)).1 =
    acc ++ (((states.enumFrom j).map
      (fun p => row_text N (al.lexicographic_next^[p.1] start) p.2)).map
        (fun l => l ++ ['\n'])).flatten := by
  induction states generalizing acc j with
  | nil => simp
  | cons s ss ih =>
    simp only [List.foldl_cons, List.enumFrom_cons, List.map_cons, List.flatten_cons]
    rw [← Function.iterate_succ_apply' al.lexicographic_next j start]
    rw [ih, write_row_eq]
    simp [List.append_assoc]

theorem write_eq {F : Type} (al : Alphabet) (N : NumText F) (m : PoreModel F)
    (modelname : Text) :
    write al N m modelname =
      "#model_name\t".toList ++ (if modelname.isEmpty then m.name else modelname) ++
        '\n' :: ((m.states.enum.map (fun p => row_text N (al.kmer_at m.k p.1) p.2)).map
          (fun l => l ++ ['\n'])).flatten := by
  unfold write
  simp only
  have := write_fold al N (List.replicate m.k (al.base 0)) m.states
    ("#model_name\t".toList ++ (if modelname.isEmpty then m.name else modelname) ++ ['\n']) 0
  simp only [Function.iterate_zero, id_eq] at this
  rw [this]
  simp [List.enum, Alphabet.kmer_at]

theorem getlines_from_line (l rest cur : Text) (h : '\n' ∉ l) :
    getlines_from (l ++ '\n' :: rest) cur = (cur ++ l) :: getlines_from rest [] := by
  induction l generalizing cur with
  | nil => simp [getlines_from]
  | cons c cs ih =>
    have hc : c ≠ '\n' := fun e => h (e ▸ List.mem_cons_self _ _)
    have hcs : '\n' ∉ cs := fun e => h (List.mem_cons_of_mem _ e)
    simp only [List.cons_append, getlines_from, hc, if_false]
    rw [show cs.append ('\n' :: rest) = cs ++ '\n' :: rest from rfl, ih _ hcs]
    simp

theorem getlines_from_lines (ls : List Text) (h : ∀ l ∈ ls, '\n' ∉ l) :
    getlines_from ((ls.map (fun l => l ++ ['\n'])).flatten) [] = ls := by
  induction ls with
  | nil => rfl
  | cons l ls ih =>
    simp only [List.map_cons, List.flatten_cons, List.append_assoc, List.singleton_append]
    rw [getlines_from_line l _ [] (h l (List.mem_cons_self _ _)),
      ih (fun x hx => h x (List.mem_cons_of_mem _ hx))]
    simp

theorem find_none_of_not_mem (c : Char) (cs hay : Text) (h : c ∉ hay) :
    find hay (c :: cs) = none := by
  induction hay with
  | nil => rfl
  | cons x xs ih =>
    have hx : c ≠ x := fun e => h (e ▸ List.mem_cons_self _ _)
    have hxs : c ∉ xs := fun e => h (List.mem_cons_of_mem _ e)
    simp [find, List.isPrefixOf, hx, ih hxs]

theorem find_cons_eq_zero (x : Char) (xs needle : Text) :
    (find (x :: xs) needle == some 0) = needle.isPrefixOf (x :: xs) := by
  unfold find
  split
  · rename_i h; simp [h]
  · rename_i h
    have h2 : needle.isPrefixOf (x :: xs) = false := Bool.eq_false_iff.2 h
    rw [h2]
    cases find xs needle <;> simp

theorem kmer_word_not_before_tab (kmer rest : Text)
    (h : "kmer".toList.isPrefixOf kmer = false) :
    "kmer".toList.isPrefixOf (kmer ++ '\t' :: rest) = false := by
  have e : "kmer".toList = ['k', 'm', 'e', 'r'] := rfl
  rw [e] at h ⊢
  match kmer, h with
  | [], _ => simp [List.isPrefixOf]
  | [a], _ => simp [List.isPrefixOf]
  | [a, b], _ => simp [List.isPrefixOf]
  | [a, b, c], _ => simp [List.isPrefixOf]
  | a :: b :: c :: d :: t, h =>
    simp only [List.isPrefixOf, List.cons_append] at h ⊢
    simpa using h

theorem takeWhile_token (tok rest : Text) (h : ∀ c ∈ tok, isspace c = false)
    (hr : ∀ c, rest.head? = some c → isspace c = true) :
    (tok ++ rest).takeWhile (fun x => !isspace x) = tok ∧
    (tok ++ rest).dropWhile (fun x => !isspace x) = rest := by
  induction tok with
  | nil =>
    cases rest with
    | nil => simp
    | cons c cs => simp [List.takeWhile, List.dropWhile, hr c rfl]
  | cons t ts ih =>
    have ht : isspace t = false := h t (List.mem_cons_self _ _)
    have := ih (fun c hc => h c (List.mem_cons_of_mem _ hc))
    simp [List.takeWhile, List.dropWhile, ht, this.1, this.2]

theorem extract_string_token (tok rest target : Text) (hne : tok ≠ [])
    (h : ∀ c ∈ tok, isspace c = false)
    (hr : ∀ c, rest.head? = some c → isspace c = true) :
    extract_string { buf := tok ++ rest, good := true } target =
      ({ buf := rest, good := true }, tok) := by
  obtain ⟨t, ts, rfl⟩ := List.exists_cons_of_ne_nil hne
  have ht : isspace t = false := h t (List.mem_cons_self _ _)
  have := takeWhile_token (t :: ts) rest h hr
  simp only [List.cons_append] at this
  have hd : (t :: (ts ++ rest)).dropWhile isspace = t :: (ts ++ rest) :=
    List.dropWhile_cons_of_neg (by simp [ht])
  unfold extract_string
  simp only [if_true, List.cons_append]
  rw [hd]
  simp only
  rw [this.1, this.2]

theorem extract_num_token {F : Type} (A : Arith F) (N : NumText F) (x target : F)
    (rest : Text) (hx : N.Exact x)
    (hr : ∀ c, rest.head? = some c → isspace c = true) :
    extract_num A N { buf := '\t' :: (N.render x ++ rest), good := true } target =
      ({ buf := rest, good := true }, x) := by
  obtain ⟨t, ts, e⟩ := List.exists_cons_of_ne_nil hx.nonempty
  have ht : isspace t = false := (hx.token t (e ▸ List.mem_cons_self _ _)).1
  have htab : isspace '\t' = true := by decide
  have hread := hx.read_render rest hr
  rw [e] at hread ⊢
  simp only [List.cons_append] at hread ⊢
  have hd : ('\t' :: t :: (ts ++ rest)).dropWhile isspace = t :: (ts ++ rest) := by
    rw [List.dropWhile_cons_of_pos htab, List.dropWhile_cons_of_neg (by simp [ht])]
  unfold extract_num
  simp only [if_true]
  rw [hd]
  simp only
  rw [hread]

theorem row_text_eq {F : Type} (N : NumText F) (kmer : Text) (s : PoreModelStateParams F) :
    row_text N kmer s =
      kmer ++ ('\t' :: (N.render s.level_mean ++ ('\t' :: (N.render s.level_stdv ++
        ('\t' :: (N.render s.sd_mean ++ ('\t' :: (N.render s.sd_stdv ++ []))))))))  := by
  simp [row_text]

theorem head_tab (rest : Text) : ∀ c, ('\t' :: rest).head? = some c → isspace c = true := by
  intro c hc
  simp only [List.head?_cons, Option.some.injEq] at hc
  subst hc
  decide

theorem read_row_row_text {F : Type} (A : Arith F) (N : NumText F) (kmer : Text)
    (s junk : PoreModelStateParams F) (hne : kmer ≠ [])
    (hsym : ∀ c ∈ kmer, isspace c = false ∧ c ≠ '#') (hs : N.ExactParams s) :
    read_row A N { buf := row_text N kmer s, good := true } junk =
      ({ buf := [], good := true }, kmer, s) := by
  obtain ⟨h1, h2, h3, h4⟩ := hs
  rw [row_text_eq]
  unfold read_row
  simp only
  rw [extract_string_token kmer _ [] hne (fun c hc => (hsym c hc).1) (head_tab _)]
  simp only
  rw [extract_num_token A N _ _ _ h1 (head_tab _)]
  simp only
  rw [extract_num_token A N _ _ _ h2 (head_tab _)]
  simp only
  rw [extract_num_token A N _ _ _ h3 (head_tab _)]
  simp only
  rw [extract_num_token A N _ _ _ h4 (by simp)]

theorem mem_row_text {F : Type} (N : NumText F) (kmer : Text) (s : PoreModelStateParams F)
    (hsym : ∀ c ∈ kmer, isspace c = false ∧ c ≠ '#') (hs : N.ExactParams s) :
    ∀ c ∈ row_text N kmer s, c ≠ '\n' ∧ c ≠ '#' := by
  obtain ⟨h1, h2, h3, h4⟩ := hs
  have tok : ∀ c, isspace c = false ∧ c ≠ '#' → c ≠ '\n' ∧ c ≠ '#' := by
    intro c hc
    refine ⟨fun e => ?_, hc.2⟩
    rw [e] at hc
    exact absurd hc.1 (by decide)
  intro c hc
  rw [row_text_eq] at hc
  simp only [List.mem_append, List.mem_cons, List.not_mem_nil, or_false] at hc
  rcases hc with hc | hc | hc | hc | hc | hc | hc | hc | hc
  · exact tok c (hsym c hc)
  · subst hc; decide
  · exact tok c (h1.token c hc)
  · subst hc; decide
  · exact tok c (h2.token c hc)
  · subst hc; decide
  · exact tok c (h3.token c hc)
  · subst hc; decide
  · exact tok c (h4.token c hc)

/-- A data line of the writer, read back: it is a well-formed data row with the k-mer and
the parameters that were written. -/
theorem row_text_read {F : Type} (A : Arith F) (N : NumText F) (kmer : Text)
    (s : PoreModelStateParams F) (hne : kmer ≠ [])
    (hsym : ∀ c ∈ kmer, isspace c = false ∧ c ≠ '#')
    (hnh : "kmer".toList.isPrefixOf kmer = false) (hs : N.ExactParams s) :
    '\n' ∉ row_text N kmer s ∧ is_header (row_text N kmer s) = false ∧
    row_ok A N (row_text N kmer s) = true ∧ row_kmer (row_text N kmer s) = kmer ∧
    row_params A N (row_text N kmer s) = s := by
  have hmem := mem_row_text N kmer s hsym hs
  have hstream : row_stream (row_text N kmer s) = { buf := row_text N kmer s, good := true } := by
    unfold row_stream read_model_name
    have : find (row_text N kmer s) "#model_name".toList = none :=
      find_none_of_not_mem '#' "model_name".toList _ (fun hc => (hmem _ hc).2 rfl)
    simp only [this, Option.isSome_none, Bool.false_eq_true, if_false]
  have hrow := read_row_row_text A N kmer s (PoreModelStateParams.zero A) hne hsym hs
  refine ⟨fun hc => (hmem _ hc).1 rfl, ?_, ?_, ?_, ?_⟩
  · obtain ⟨t, ts, rfl⟩ := List.exists_cons_of_ne_nil hne
    have ht : t ≠ '#' := (hsym t (List.mem_cons_self _ _)).2
    have hk := kmer_word_not_before_tab (t :: ts)
      (N.render s.level_mean ++ ('\t' :: (N.render s.level_stdv ++
        ('\t' :: (N.render s.sd_mean ++ ('\t' :: (N.render s.sd_stdv ++ []))))))) hnh
    rw [← row_text_eq] at hk
    have e : row_text N (t :: ts) s = t :: (ts ++ '\t' :: N.render s.level_mean ++
        '\t' :: N.render s.level_stdv ++ '\t' :: N.render s.sd_mean ++
        '\t' :: N.render s.sd_stdv) := by
      simp [row_text]
    rw [e] at hk ⊢
    unfold is_header
    rw [find_cons_eq_zero, hk]
    simp [ht]
  · unfold row_ok
    rw [hstream, hrow]
  · have := read_row_kmer A N (row_text N kmer s) [] (PoreModelStateParams.zero A)
    rw [← this]
    change (read_row A N (row_stream (row_text N kmer s)) (PoreModelStateParams.zero A)).2.1 = kmer
    rw [hstream, hrow]
  · unfold row_params
    rw [hstream, hrow]

theorem getlines_write {F : Type} (al : Alphabet) (N : NumText F) (m : PoreModel F)
    (modelname : Text)
    (hname : '\n' ∉ (if modelname.isEmpty then m.name else modelname))
    (hrows : ∀ l ∈ m.states.enum.map (fun p => row_text N (al.kmer_at m.k p.1) p.2),
      '\n' ∉ l) :
    getlines (write al N m modelname) =
      ("#model_name\t".toList ++ (if modelname.isEmpty then m.name else modelname)) ::
        m.states.enum.map (fun p => row_text N (al.kmer_at m.k p.1) p.2) := by
  have hh : '\n' ∉ "#model_name\t".toList ++ (if modelname.isEmpty then m.name else modelname) := by
    intro hc
    rcases List.mem_append.1 hc with h | h
    · exact absurd h (by decide)
    · exact hname h
  rw [getlines, write_eq, getlines_from_line _ _ [] hh, getlines_from_lines _ hrows]
  simp

theorem is_header_name_line (name : Text) :
    is_header ("#model_name\t".toList ++ name) = true := by
  have e : "#model_name\t".toList ++ name = '#' :: ("model_name\t".toList ++ name) := rfl
  rw [e]
  simp [is_header]

/-! ## The constructors and the writer: claims -/

/-- C5 (Text Loader size check). For every input: a successful load has as many states
as the input has data rows; and when the input has a first data row, with `k` the length
of its k-mer, the load succeeds only if the number of data rows is `get_num_strings k`,
and then `states` has that size and the entity has that `k`, while any other number of
data rows makes the load fail. With the four-symbol alphabet and a first k-mer of length
4, a successful load has 256 states, and 255 or 257 data rows make the load fail. -/
theorem from_file_size_check {F : Type} (al : Alphabet) (A : Arith F) (N : NumText F)
    (u : PoreModel F) (junk : Nat → PoreModelStateParams F) (lines : List Text) :
    (∀ m, from_file al A N u junk lines = Except.ok m →
      m.states.length = (data_rows lines).length ∧
      ∀ l rs, data_rows lines = l :: rs →
        (data_rows lines).length = al.get_num_strings (row_kmer l).length ∧
        m.states.length = al.get_num_strings (row_kmer l).length ∧
        m.k = (row_kmer l).length) ∧
    (∀ l rs, data_rows lines = l :: rs →
      (data_rows lines).length ≠ al.get_num_strings (row_kmer l).length →
      ∃ e, from_file al A N u junk lines = Except.error e) ∧
    (al = dna → ∀ l rs, data_rows lines = l :: rs → (row_kmer l).length = 4 →
      (∀ m, from_file al A N u junk lines = Except.ok m → m.states.length = 256) ∧
      ((data_rows lines).length = 255 ∨ (data_rows lines).length = 257 →
        ∃ e, from_file al A N u junk lines = Except.error e)) := by
  have key : ∀ l rs, data_rows lines = l :: rs →
      ∀ m, from_file al A N u junk lines = Except.ok m →
      (data_rows lines).length = al.get_num_strings (row_kmer l).length ∧
      m.states.length = al.get_num_strings (row_kmer l).length ∧
      m.k = (row_kmer l).length := by
    intro l rs hd m hm
    unfold from_file at hm
    cases hf : lines.foldlM (load_line al A N junk)
        { obj := uninitialised u, firstKmer := true, ninserted := 0 } with
    | error e => rw [hf] at hm; cases hm
    | ok st =>
      rw [hf] at hm
      simp only at hm
      obtain ⟨h1, h2, h3⟩ := fold_count_first al A N junk lines _ st l rs hd rfl rfl hf
      split at hm
      · rename_i heq
        cases hm
        refine ⟨?_, h3, h2⟩
        rw [hd, ← h3, ← heq, h1]
        simp
      · cases hm
  have fails : ∀ l rs, data_rows lines = l :: rs →
      (data_rows lines).length ≠ al.get_num_strings (row_kmer l).length →
      ∃ e, from_file al A N u junk lines = Except.error e := by
    intro l rs hd hne
    cases hr : from_file al A N u junk lines with
    | error e => exact ⟨e, rfl⟩
    | ok m => exact absurd (key l rs hd m hr).1 hne
  refine ⟨fun m hm => ⟨?_, fun l rs hd => key l rs hd m hm⟩, fails, ?_⟩
  · cases hd : data_rows lines with
    | nil =>
      rw [from_file_no_rows al A N u junk lines hd] at hm
      cases hm
      rfl
    | cons l rs =>
      obtain ⟨h1, h2, -⟩ := key l rs hd m hm
      rw [h2, ← h1, hd]
  · intro hal l rs hd h4
    have hc : al.get_num_strings (row_kmer l).length = 256 := by
      rw [hal, h4]; rfl
    refine ⟨fun m hm => by rw [(key l rs hd m hm).2.1, hc], fun h => fails l rs hd ?_⟩
    rw [hc]
    rcases h with h | h <;> rw [h] <;> decide

/-- C5 on a table of 1-mers of the four-symbol alphabet: its four data rows load to four
states, and the table without its last row does not load. -/
theorem from_file_size_check_witness :
    data_rows table_one = "C\t5\t6\t7\t8".toList :: (table_one.drop 3) ∧
    (∃ m, from_file dna symArith symText sym_memory sym_junk table_one = Except.ok m ∧
      m.states.length = 4 ∧ m.k = 1) ∧
    (∃ e, from_file dna symArith symText sym_memory sym_junk (table_one.take 5) =
      Except.error e) :=
  ⟨by decide,
   ⟨model_one, rfl,
    (((from_file_size_check dna symArith symText sym_memory sym_junk table_one).1
      model_one rfl).2 "C\t5\t6\t7\t8".toList (table_one.drop 3) (by decide)).2⟩,
   (from_file_size_check dna symArith symText sym_memory sym_junk (table_one.take 5)).2.1
      "C\t5\t6\t7\t8".toList ((table_one.take 5).drop 3) (by decide) (by decide)⟩

/-- C6 (placement by rank). For every `k` (so for every `k ≥ 1`) and every input whose
data rows are well formed and list each k-mer of length `k` exactly once, in any order,
the load succeeds, and the entry at the rank of the k-mer of each row holds the four
parameters of that row, whatever the position of its line; every rank is the rank of the
k-mer of some row; and an input with the same data rows in another order loads to the
same `states` table. -/
theorem from_file_by_rank {F : Type} (al : Alphabet) (A : Arith F) (N : NumText F)
    (u : PoreModel F) (junk : Nat → PoreModelStateParams F) (k : Nat)
    (lines : List Text) (hal : al.Enumerates k)
    (hwf : ∀ l ∈ data_rows lines, row_ok A N l = true)
    (hperm : ((data_rows lines).map row_kmer).Perm
      ((List.range (al.get_num_strings k)).map (al.kmer_at k))) :
    ∃ m, from_file al A N u junk lines = Except.ok m ∧ m.k = k ∧
      m.states.length = al.get_num_strings k ∧
      (∀ l ∈ data_rows lines,
        m.states[al.kmer_rank (row_kmer l) k]? = some (row_params A N l)) ∧
      (∀ i, i < al.get_num_strings k → ∃ l ∈ data_rows lines,
        row_kmer l = al.kmer_at k i ∧ m.states[i]? = some (row_params A N l)) ∧
      (∀ lines2 : List Text, (data_rows lines2).Perm (data_rows lines) →
        ∃ m2, from_file al A N u junk lines2 = Except.ok m2 ∧ m2.states = m.states) := by
  obtain ⟨m, hm, hmk, hml, hrows⟩ := rank_placement_core al A N u junk k lines hal hwf hperm
  have hall : ∀ i, i < al.get_num_strings k → ∃ l ∈ data_rows lines,
      row_kmer l = al.kmer_at k i ∧ m.states[i]? = some (row_params A N l) := by
    intro i hi
    have : al.kmer_at k i ∈ (data_rows lines).map row_kmer :=
      hperm.symm.subset (List.mem_map_of_mem _ (List.mem_range.2 hi))
    obtain ⟨l, hl, e⟩ := List.mem_map.1 this
    refine ⟨l, hl, e, ?_⟩
    have := hrows l hl
    rwa [e, hal.rank_kmer i hi] at this
  refine ⟨m, hm, hmk, hml, hrows, hall, ?_⟩
  intro lines2 hp
  obtain ⟨m2, hm2, -, hml2, hrows2⟩ := rank_placement_core al A N u junk k lines2 hal
    (fun l hl => hwf l (hp.subset hl)) ((hp.map row_kmer).trans hperm)
  refine ⟨m2, hm2, ?_⟩
  apply List.ext_getElem?
  intro i
  by_cases hi : i < al.get_num_strings k
  · obtain ⟨l, hl, e, hs⟩ := hall i hi
    have := hrows2 l (hp.symm.subset hl)
    rw [e, hal.rank_kmer i hi] at this
    rw [this, hs]
  · rw [List.getElem?_eq_none (by omega), List.getElem?_eq_none (by omega)]

/-- C6 on a table of 1-mers whose rows come in the order C, A, T, G: the row of `C` is
stored at rank 1 and the row of `A` at rank 0. -/
theorem from_file_by_rank_witness :
    ∃ m, from_file dna symArith symText sym_memory sym_junk table_one = Except.ok m ∧
      m.states[1]? = some ⟨.lit 5, .lit 6, .lit 7, .lit 8⟩ ∧
      m.states[0]? = some ⟨.lit 1, .lit 2, .lit 3, .lit 4⟩ := by
  obtain ⟨m, hm, -, -, hrows, -, -⟩ :=
    from_file_by_rank dna symArith symText sym_memory sym_junk 1 table_one
      dna_enumerates_one (by decide) (by decide)
  exact ⟨m, hm, hrows "C\t5\t6\t7\t8".toList (by decide), hrows "A\t1\t2\t3\t4".toList (by decide)⟩

/-- C8, as stated, fails: the four records `records_wide` of 1-mers have distinct k-mers
and are as many as there are 1-mers, and the Container Loader returns an entity; the
record of `A` has `level_mean = 16777217`, and the entry at the rank of `A` holds
`16777216`, the value that `static_cast<float>` gives, not the parameter of the record. -/
theorem from_fast5_cast_counterexample :
    records_wide.length = dna.get_num_strings 1 ∧
    (records_wide.map (fun e => e.kmer)).Nodup ∧
    ∃ m, from_fast5 dna floatArith sym_memory records_wide parameters_one [] = Except.ok m ∧
      m.states[dna.kmer_rank "A".toList 1]? =
        some ⟨.lit 16777216, .lit 2, .lit 3, .lit 4⟩ ∧
      m.states[dna.kmer_rank "A".toList 1]? ≠
        some ⟨.lit 16777217, .lit 2, .lit 3, .lit 4⟩ := by
  refine ⟨by decide, by decide, _,
    from_fast5_ok dna floatArith sym_memory _ _ parameters_one [] (by decide) (by decide),
    ?_, ?_⟩
  · rw [PoreModel.bake_eq]
    decide
  · rw [PoreModel.bake_eq]
    decide

/-- C8, amended (the Container Loader yields a scaled entity). For a non-empty record list
whose length is `get_num_strings k`, with `k` the length of the k-mer of the first record,
and whose ranks lie in the table, the constructor returns an entity with that `k`, with
the six coefficients of the scaling-parameter record, with `is_scaled = true` and with
`scaled_params` computed from `states` at every rank. When the ranks of the records are
pairwise distinct, the entry at the rank of each record holds the four parameters of that
record converted by `static_cast<float>`. -/
theorem from_fast5_scaled {F : Type} (al : Alphabet) (A : Arith F) (u : PoreModel F)
    (first : Model_Entry F) (rest : List (Model_Entry F)) (params : Model_Parameters F)
    (model_file : Text)
    (hlen : (first :: rest).length = al.get_num_strings first.kmer.length)
    (hrange : ∀ e ∈ first :: rest,
      al.kmer_rank e.kmer first.kmer.length < al.get_num_strings first.kmer.length) :
    ∃ m, from_fast5 al A u (first :: rest) params model_file = Except.ok m ∧
      m.k = first.kmer.length ∧
      (m.drift = params.drift ∧ m.scale = params.scale ∧ m.scale_sd = params.scale_sd ∧
        m.shift = params.shift ∧ m.var = params.var ∧ m.var_sd = params.var_sd) ∧
      m.is_scaled = true ∧
      m.states.length = al.get_num_strings first.kmer.length ∧
      m.scaled_params.length = m.states.length ∧
      (∀ (i : Nat) (s : PoreModelStateParams F), m.states[i]? = some s →
        ∃ g, m.scaled_params[i]? = some g ∧
          g.mean = A.add (A.mul s.level_mean m.scale) m.shift ∧
          g.stdv = A.mul s.level_stdv m.var ∧
          g.log_stdv = A.log g.stdv) ∧
      ((first :: rest).Pairwise (fun a b =>
          al.kmer_rank a.kmer first.kmer.length ≠ al.kmer_rank b.kmer first.kmer.length) →
        ∀ e ∈ first :: rest,
          m.states[al.kmer_rank e.kmer first.kmer.length]? =
            some { level_mean := A.toFloat e.level_mean, level_stdv := A.toFloat e.level_stdv,
                   sd_mean := A.toFloat e.sd_mean, sd_stdv := A.toFloat e.sd_stdv }) := by
  refine ⟨_, from_fast5_ok al A u first rest params model_file hlen hrange, ?_⟩
  rw [PoreModel.bake_eq]
  refine ⟨rfl, ⟨rfl, rfl, rfl, rfl, rfl, rfl⟩, rfl, ?_, ?_, ?_, ?_⟩
  · simp [length_place]
  · simp
  · intro i s hs
    simp only at hs
    exact ⟨_, by simp only [List.getElem?_map, hs]; rfl, rfl, rfl, rfl⟩
  · intro hd e he
    exact place_getElem? al first.kmer.length _ _ (List.pairwise_map.2 hd)
      (e.kmer, entry_params A e) (List.mem_map_of_mem _ he)
      (by simpa using hrange e he)

/-- C8, amended, on the records `records_wide` with the cast evaluated: the entity is
scaled, the record of `C`, whose parameters are `float` values, is found unchanged at rank
1, and the record of `A` is found at rank 0 with its `level_mean` rounded to `16777216`. -/
theorem from_fast5_scaled_witness :
    ∃ m, from_fast5 dna floatArith sym_memory records_wide parameters_one
        "/opt/chimaera/model/a/b/model.txt".toList = Except.ok m ∧
      m.is_scaled = true ∧
      m.states[1]? = some ⟨.lit 5, .lit 6, .lit 7, .lit 8⟩ ∧
      m.states[0]? = some ⟨.lit 16777216, .lit 2, .lit 3, .lit 4⟩ := by
  obtain ⟨m, hm, -, -, hs, -, -, -, hrec⟩ :=
    from_fast5_scaled dna floatArith sym_memory
      ⟨"A".toList, .lit 16777217, .lit 2, .lit 3, .lit 4⟩
      (records_wide.drop 1) parameters_one "/opt/chimaera/model/a/b/model.txt".toList
      (by decide) (by decide)
  exact ⟨m, hm, hs,
    hrec (by decide) ⟨"C".toList, .lit 5, .lit 6, .lit 7, .lit 8⟩
      (List.mem_cons_of_mem _ (List.mem_cons_self _ _)),
    hrec (by decide) ⟨"A".toList, .lit 16777217, .lit 2, .lit 3, .lit 4⟩
      (List.mem_cons_self _ _)⟩

/-- C9 (count check of the Container Loader). For a non-empty record list, with `k` the
length of the k-mer of the first record: when the number of records differs from
`get_num_strings k` the constructor fails on its assertion and returns no entity; and,
the ranks of the records lying in the table, it fails if and only if the number of
records differs from `get_num_strings k`. -/
theorem from_fast5_count_check {F : Type} (al : Alphabet) (A : Arith F) (u : PoreModel F)
    (first : Model_Entry F) (rest : List (Model_Entry F)) (params : Model_Parameters F)
    (model_file : Text) :
    ((first :: rest).length ≠ al.get_num_strings first.kmer.length →
      from_fast5 al A u (first :: rest) params model_file = Except.error Err.assertFailed) ∧
    ((∀ e ∈ first :: rest,
        al.kmer_rank e.kmer first.kmer.length < al.get_num_strings first.kmer.length) →
      ((∃ e, from_fast5 al A u (first :: rest) params model_file = Except.error e) ↔
        (first :: rest).length ≠ al.get_num_strings first.kmer.length)) := by
  refine ⟨from_fast5_count_ne al A u first rest params model_file, fun hrange => ?_⟩
  constructor
  · rintro ⟨e, he⟩ hlen
    rw [from_fast5_ok al A u first rest params model_file hlen hrange] at he
    cases he
  · intro hne
    exact ⟨_, from_fast5_count_ne al A u first rest params model_file hne⟩

/-- C9 on records of 1-mers: four records are accepted, three records are refused. -/
theorem from_fast5_count_check_witness :
    (¬ ∃ e, from_fast5 dna symArith sym_memory records_one parameters_one [] =
      Except.error e) ∧
    from_fast5 dna symArith sym_memory (records_one.take 3) parameters_one [] =
      Except.error Err.assertFailed :=
  ⟨fun h => ((from_fast5_count_check dna symArith sym_memory
      ⟨"C".toList, .lit 5, .lit 6, .lit 7, .lit 8⟩ (records_one.drop 1) parameters_one []).2
      (by decide)).1 h (by decide),
   (from_fast5_count_check dna symArith sym_memory
      ⟨"C".toList, .lit 5, .lit 6, .lit 7, .lit 8⟩ ((records_one.take 3).drop 1)
      parameters_one []).1 (by decide)⟩

/-- C10 (name derivation, prefix case). When the path of the model file is the
installation prefix `/opt/chimaera/model/` followed by `rest`, the entity that the
Container Loader returns has the name `rest` with every `/` replaced by `_`. -/
theorem from_fast5_name_prefixed {F : Type} (al : Alphabet) (A : Arith F) (u : PoreModel F)
    (model : List (Model_Entry F)) (params : Model_Parameters F) (rest : Text)
    (m : PoreModel F)
    (h : from_fast5 al A u model params ("/opt/chimaera/model/".toList ++ rest) =
      Except.ok m) :
    m.name = rest.map (fun c => if c = '/' then '_' else c) := by
  rw [from_fast5_name al A u model params _ m h]
  exact shorten_model_name_leader rest

/-- C10 on the example of the spec: the prefix followed by `a/b/model.txt` yields the name
`a_b_model.txt`. -/
theorem from_fast5_name_prefixed_witness :
    ∃ m, from_fast5 dna symArith sym_memory records_one parameters_one
        ("/opt/chimaera/model/".toList ++ "a/b/model.txt".toList) = Except.ok m ∧
      m.name = "a_b_model.txt".toList := by
  obtain ⟨m, hm⟩ : ∃ m, from_fast5 dna symArith sym_memory records_one parameters_one
      ("/opt/chimaera/model/".toList ++ "a/b/model.txt".toList) = Except.ok m :=
    ⟨_, from_fast5_ok dna symArith sym_memory _ _ parameters_one _ (by decide) (by decide)⟩
  exact ⟨m, hm, from_fast5_name_prefixed dna symArith sym_memory records_one parameters_one
    "a/b/model.txt".toList m hm⟩

/-- C7 (output of the Text Writer). The text that `write` produces is the header line
`#model_name<TAB>N`, with `N` the argument `modelname` when it is not empty and the name
of the entity otherwise, followed by exactly `states.size()` data lines; the data line
number `i` is the k-mer reached from `k` copies of the first symbol by `i` steps of
`lexicographic_next`, followed by the four raw parameters of `states[i]`, separated by
tabs. Every line is ended by `std::endl`; when no line holds a line break of its own,
these are the lines that `getline` reads back from the text. -/
theorem write_output {F : Type} (al : Alphabet) (N : NumText F) (m : PoreModel F)
    (modelname : Text) :
    ∃ data : List Text,
      write al N m modelname =
        "#model_name\t".toList ++ (if modelname.isEmpty then m.name else modelname) ++
          '\n' :: (data.map (fun l => l ++ ['\n'])).flatten ∧
      data.length = m.states.length ∧
      (∀ (i : Nat) (s : PoreModelStateParams F), m.states[i]? = some s →
        data[i]? = some
          (al.lexicographic_next^[i] (List.replicate m.k (al.base 0)) ++
            '\t' :: N.render s.level_mean ++ '\t' :: N.render s.level_stdv ++
            '\t' :: N.render s.sd_mean ++ '\t' :: N.render s.sd_stdv)) ∧
      ('\n' ∉ (if modelname.isEmpty then m.name else modelname) →
        (∀ l ∈ data, '\n' ∉ l) →
        getlines (write al N m modelname) =
          ("#model_name\t".toList ++ (if modelname.isEmpty then m.name else modelname)) ::
            data) := by
  refine ⟨_, write_eq al N m modelname, ?_, ?_, ?_⟩
  · rw [List.length_map, List.enum_length]
  · intro i s hs
    rw [List.getElem?_map, List.getElem?_enum, hs]
    rfl
  · intro hname hrows
    exact getlines_write al N m modelname hname hrows

/-- C7 on the table of 1-mers `model_one`, written without a name override: the header
carries the own name `r9`, the data line number 1 is the line of the k-mer `C`, and
`getline` reads back the header and the four data lines. -/
theorem write_output_witness :
    ∃ data : List Text,
      write dna symText model_one [] =
        "#model_name\tr9".toList ++ '\n' :: (data.map (fun l => l ++ ['\n'])).flatten ∧
      data.length = 4 ∧
      data[1]? = some "C\t5\t6\t7\t8".toList ∧
      getlines (write dna symText model_one []) = "#model_name\tr9".toList :: data := by
  obtain ⟨data, hw, hl, hrow, hget⟩ := write_output dna symText model_one []
  have h0 := hrow 0 ⟨.lit 1, .lit 2, .lit 3, .lit 4⟩ rfl
  have h1 := hrow 1 ⟨.lit 5, .lit 6, .lit 7, .lit 8⟩ rfl
  have h2 := hrow 2 ⟨.lit 9, .lit 9, .lit 9, .lit 9⟩ rfl
  have h3 := hrow 3 ⟨.lit 4, .lit 3, .lit 2, .lit 1⟩ rfl
  have hlen : data.length = 4 := hl
  refine ⟨data, hw, hl, h1, hget (by decide) ?_⟩
  intro l hmem
  obtain ⟨i, hi⟩ := List.mem_iff_getElem?.1 hmem
  have hi4 : i < 4 := by
    rw [← hlen]
    exact (List.getElem?_eq_some.1 hi).1
  interval_cases i
  · rw [h0] at hi; cases hi; decide
  · rw [h1] at hi; cases hi; decide
  · rw [h2] at hi; cases hi; decide
  · rw [h3] at hi; cases hi; decide

/-- C4, as stated, fails: an entity with `k = 1`, four states and exactly rendered
parameters, whose name holds a line break followed by the text of a data row, is written
to a text that the Text Loader refuses (five data rows for four k-mers). -/
theorem round_trip_counterexample :
    (1 ≤ model_two_lines.k ∧
      model_two_lines.states.length = dna.get_num_strings model_two_lines.k ∧
      (∀ s ∈ model_two_lines.states, symText.ExactParams s)) ∧
    from_file dna symArith symText sym_memory sym_junk
      (getlines (write dna symText model_two_lines [])) = Except.error Err.assertFailed := by
  refine ⟨⟨by decide, by decide, ?_⟩, rfl⟩
  intro s hs
  simp only [model_two_lines, model_one, List.mem_cons, List.mem_singleton,
    List.not_mem_nil, or_false] at hs
  rcases hs with rfl | rfl | rfl | rfl <;>
    exact ⟨symText_exact_digit _ (by decide), symText_exact_digit _ (by decide),
      symText_exact_digit _ (by decide), symText_exact_digit _ (by decide)⟩

/-- C4, amended (round trip). For an entity with `k ≥ 1` and `states.size()` equal to
`get_num_strings k`, whose written name holds no line break, over an alphabet that
enumerates the k-mers of length `k` in rank order with symbols that can stand in a text
table, and with an exact text rendering of the numeric fields: the Text Loader succeeds
on the lines of the text that `write` produces, and yields the same `k` and the same
`states` table. -/
theorem write_from_file_round_trip {F : Type} (al : Alphabet) (A : Arith F) (N : NumText F)
    (u : PoreModel F) (junk : Nat → PoreModelStateParams F) (m : PoreModel F)
    (modelname : Text) (hk : 1 ≤ m.k)
    (hsize : m.states.length = al.get_num_strings m.k)
    (hal : al.Enumerates m.k) (hsafe : al.TextSafe m.k)
    (hnum : ∀ s ∈ m.states, N.ExactParams s)
    (hname : '\n' ∉ (if modelname.isEmpty then m.name else modelname)) :
    ∃ m2, from_file al A N u junk (getlines (write al N m modelname)) = Except.ok m2 ∧
      m2.k = m.k ∧ m2.states = m.states := by
  -- each written data line reads back as the row it was written from
  have hline : ∀ (i : Nat) (s : PoreModelStateParams F), m.states[i]? = some s →
      '\n' ∉ row_text N (al.kmer_at m.k i) s ∧
      is_header (row_text N (al.kmer_at m.k i) s) = false ∧
      row_ok A N (row_text N (al.kmer_at m.k i) s) = true ∧
      row_kmer (row_text N (al.kmer_at m.k i) s) = al.kmer_at m.k i ∧
      row_params A N (row_text N (al.kmer_at m.k i) s) = s := by
    intro i s hs
    have hi : i < al.get_num_strings m.k := by
      rw [← hsize]
      exact (List.getElem?_eq_some.1 hs).1
    have hne : al.kmer_at m.k i ≠ [] := by
      intro e
      have := hal.length_kmer i hi
      rw [e] at this
      simp at this
      omega
    exact row_text_read A N _ s hne (hsafe.symbols i hi) (hsafe.not_header i hi)
      (hnum s (List.mem_iff_getElem?.2 ⟨i, hs⟩))
  have hdl : ∀ l ∈ m.states.enum.map (fun p => row_text N (al.kmer_at m.k p.1) p.2),
      ∃ i s, m.states[i]? = some s ∧ l = row_text N (al.kmer_at m.k i) s := by
    intro l hl
    obtain ⟨p, hp, e⟩ := List.mem_map.1 hl
    exact ⟨p.1, p.2, List.mem_enum_iff_getElem?.1 hp, e.symm⟩
  have hlines := getlines_write al N m modelname hname (fun l hl => by
    obtain ⟨i, s, hs, rfl⟩ := hdl l hl
    exact (hline i s hs).1)
  have hdata : data_rows (getlines (write al N m modelname)) =
      m.states.enum.map (fun p => row_text N (al.kmer_at m.k p.1) p.2) := by
    rw [hlines, data_rows, List.filter_cons, is_header_name_line]
    simp only [Bool.not_true, Bool.false_eq_true, if_false]
    apply List.filter_eq_self.2
    intro l hl
    obtain ⟨i, s, hs, rfl⟩ := hdl l hl
    simp [(hline i s hs).2.1]
  have hkm : (data_rows (getlines (write al N m modelname))).map row_kmer =
      (List.range (al.get_num_strings m.k)).map (al.kmer_at m.k) := by
    rw [hdata, ← hsize, ← List.enum_map_fst, List.map_map, List.map_map]
    apply List.map_congr_left
    intro p hp
    exact (hline p.1 p.2 (List.mem_enum_iff_getElem?.1 hp)).2.2.2.1
  obtain ⟨m2, hm2, hk2, hl2, hrows⟩ := rank_placement_core al A N u junk m.k
    (getlines (write al N m modelname)) hal
    (fun l hl => by
      rw [hdata] at hl
      obtain ⟨i, s, hs, rfl⟩ := hdl l hl
      exact (hline i s hs).2.2.1)
    (by rw [hkm])
  refine ⟨m2, hm2, hk2, ?_⟩
  apply List.ext_getElem?
  intro i
  by_cases hi : i < m.states.length
  · have hs : m.states[i]? = some m.states[i] := List.getElem?_eq_getElem hi
    obtain ⟨-, -, -, h4, h5⟩ := hline i _ hs
    have hmem : row_text N (al.kmer_at m.k i) m.states[i] ∈
        data_rows (getlines (write al N m modelname)) := by
      rw [hdata]
      exact List.mem_map.2 ⟨(i, m.states[i]), List.mem_enum_iff_getElem?.2 hs, rfl⟩
    have := hrows _ hmem
    rw [h4, h5, hal.rank_kmer i (hsize ▸ hi)] at this
    rw [this, hs]
  · rw [List.getElem?_eq_none (by omega), List.getElem?_eq_none (by omega)]

/-- C4, amended, on a table of 1-mers: the entity `model_one` is read back from the text
that `write` produces for it. -/
theorem write_from_file_round_trip_witness :
    ∃ m2, from_file dna symArith symText sym_memory sym_junk
        (getlines (write dna symText model_one [])) = Except.ok m2 ∧
      m2.k = model_one.k ∧ m2.states = model_one.states :=
  write_from_file_round_trip dna symArith symText sym_memory sym_junk model_one []
    (by decide) (by decide) dna_enumerates_one dna_textSafe_one
    (by
      intro s hs
      simp only [model_one, List.mem_cons, List.mem_singleton, List.not_mem_nil,
        or_false] at hs
      rcases hs with rfl | rfl | rfl | rfl <;>
        exact ⟨symText_exact_digit _ (by decide), symText_exact_digit _ (by decide),
          symText_exact_digit _ (by decide), symText_exact_digit _ (by decide)⟩)
    (by decide)

/-! ## The text constructor as a function of its data rows -/

theorem read_row_stream_kmer {F : Type} (A : Arith F) (N : NumText F) (l : Text)
    (junk : PoreModelStateParams F) :
    (read_row A N (row_stream l) junk).2.1 = row_kmer l := rfl

theorem load_line_data_eq {F : Type} (al : Alphabet) (A : Arith F) (N : NumText F)
    (junk : Nat → PoreModelStateParams F) (obj : PoreModel F) (n : Nat) (l : Text)
    (hh : is_header l = false) :
    load_line al A N junk ⟨obj, false, n⟩ l =
      (if al.kmer_rank (row_kmer l) obj.k < obj.states.length then
        Except.ok ⟨{ obj with
          states := obj.states.set (al.kmer_rank (row_kmer l) obj.k)
            (read_params A N (junk n) l),
          name := (read_model_name l obj.name).2 }, false, n + 1⟩
      else Except.error Err.outOfRange) := by
  simp only [load_line, hh, Bool.false_eq_true, if_false, read_params,
    read_model_name_stream, read_row_stream_kmer]

theorem load_line_first_eq {F : Type} (al : Alphabet) (A : Arith F) (N : NumText F)
    (junk : Nat → PoreModelStateParams F) (obj : PoreModel F) (n : Nat) (l : Text)
    (hh : is_header l = false) (hs : obj.states = []) :
    load_line al A N junk ⟨obj, true, n⟩ l =
      (if al.kmer_rank (row_kmer l) (row_kmer l).length <
          al.get_num_strings (row_kmer l).length then
        Except.ok ⟨{ obj with
          k := (row_kmer l).length
          states := (List.replicate (al.get_num_strings (row_kmer l).length)
            (PoreModelStateParams.zero A)).set
              (al.kmer_rank (row_kmer l) (row_kmer l).length) (read_params A N (junk n) l),
          name := (read_model_name l obj.name).2 }, false, n + 1⟩
      else Except.error Err.outOfRange) := by
  simp only [load_line, hh, Bool.false_eq_true, if_false, if_true, read_params,
    read_model_name_stream, read_row_stream_kmer, hs, resize_nil, List.length_replicate]

/-- The loop after the first data row, whatever the rows hold: an out-of-range rank is
the only failure, and the rows are stored as they are read. -/
theorem fold_rest_read {F : Type} (al : Alphabet) (A : Arith F) (N : NumText F)
    (junk : Nat → PoreModelStateParams F) (lines : List Text) (obj : PoreModel F) (n : Nat) :
    lines.foldlM (load_line al A N junk) ⟨obj, false, n⟩ =
      (if (data_rows lines).all
          (fun x => decide (al.kmer_rank (row_kmer x) obj.k < obj.states.length)) then
        Except.ok
          ⟨{ obj with
              states := place al obj.k (rows_read A N junk n (data_rows lines)) obj.states
              name := name_after lines obj.name }, false, n + (data_rows lines).length⟩
      else Except.error Err.outOfRange) := by
  induction lines generalizing obj n with
  | nil =>
    simp only [data_rows, List.filter_nil, List.all_nil, if_true, rows_read, place,
      name_after, List.foldl_nil, List.length_nil, Nat.add_zero]
    rfl
  | cons l ls ih =>
    rw [List.foldlM_cons]
    by_cases hh : is_header l = true
    · have hd : data_rows (l :: ls) = data_rows ls := by
        simp [data_rows, hh]
      rw [load_line_header al A N junk _ l hh, hd]
      exact ih { obj with name := (read_model_name l obj.name).2 } n
    · have hh2 : is_header l = false := by simpa using hh
      have hd : data_rows (l :: ls) = l :: data_rows ls := by
        simp [data_rows, hh2]
      rw [load_line_data_eq al A N junk obj n l hh2, hd]
      by_cases hr : al.kmer_rank (row_kmer l) obj.k < obj.states.length
      · rw [if_pos hr]
        have := ih { obj with
          states := obj.states.set (al.kmer_rank (row_kmer l) obj.k)
            (read_params A N (junk n) l),
          name := (read_model_name l obj.name).2 } (n + 1)
        simp only [bind, Except.bind] at this ⊢
        rw [this]
        simp only [List.length_set, List.all_cons, hr, decide_True, Bool.true_and]
        split
        · simp only [place, rows_read, name_after, List.foldl_cons, List.length_cons]
          congr 2
          omega
        · rfl
      · rw [if_neg hr]
        simp only [List.all_cons, hr, decide_False, Bool.false_and]
        rfl

/-- The loop from its start, on an input with a first data row. -/
theorem fold_first_read {F : Type} (al : Alphabet) (A : Arith F) (N : NumText F)
    (junk : Nat → PoreModelStateParams F) (lines : List Text) (obj : PoreModel F)
    (l : Text) (rs : List Text) (hd : data_rows lines = l :: rs) (hs : obj.states = []) :
    lines.foldlM (load_line al A N junk) ⟨obj, true, 0⟩ =
      (if ranks_inside al (row_kmer l).length (l :: rs) then
        Except.ok
          ⟨{ obj with
              k := (row_kmer l).length
              states := place al (row_kmer l).length (rows_read A N junk 0 (l :: rs))
                (List.replicate (al.get_num_strings (row_kmer l).length)
                  (PoreModelStateParams.zero A))
              name := name_after lines obj.name }, false, (l :: rs).length⟩
      else Except.error Err.outOfRange) := by
  induction lines generalizing obj with
  | nil => simp [data_rows] at hd
  | cons x xs ih =>
    rw [List.foldlM_cons]
    by_cases hh : is_header x = true
    · have hd2 : data_rows xs = l :: rs := by
        simpa [data_rows, hh] using hd
      rw [load_line_header al A N junk _ x hh]
      exact ih { obj with name := (read_model_name x obj.name).2 } hd2 hs
    · have hh2 : is_header x = false := by simpa using hh
      have hd2 : x :: data_rows xs = l :: rs := by
        simpa [data_rows, hh2] using hd
      obtain ⟨rfl, hrs⟩ := List.cons.inj hd2
      rw [load_line_first_eq al A N junk obj 0 x hh2 hs]
      by_cases hr : al.kmer_rank (row_kmer x) (row_kmer x).length <
          al.get_num_strings (row_kmer x).length
      · rw [if_pos hr]
        have := fold_rest_read al A N junk xs { obj with
          k := (row_kmer x).length
          states := (List.replicate (al.get_num_strings (row_kmer x).length)
            (PoreModelStateParams.zero A)).set
              (al.kmer_rank (row_kmer x) (row_kmer x).length) (read_params A N (junk 0) x),
          name := (read_model_name x obj.name).2 } (0 + 1)
        simp only [bind, Except.bind] at this ⊢
        rw [this, hrs]
        simp only [ranks_inside, List.length_set, List.length_replicate, List.all_cons, hr,
          decide_True, Bool.true_and]
        split
        · simp only [place, rows_read, name_after, List.foldl_cons, List.length_cons]
          congr 2
          omega
        · rfl
      · rw [if_neg hr]
        simp only [ranks_inside, List.all_cons, hr, decide_False, Bool.false_and]
        rfl

/-- The text constructor is a function of the data rows of its input and of the name
read from it. -/
theorem from_file_eq {F : Type} (al : Alphabet) (A : Arith F) (N : NumText F)
    (u : PoreModel F) (junk : Nat → PoreModelStateParams F) (lines : List Text) :
    from_file al A N u junk lines =
      table_of_rows al A N u junk (data_rows lines) (name_after lines []) := by
  cases hd : data_rows lines with
  | nil => rw [from_file_no_rows al A N u junk lines hd]; rfl
  | cons l rs =>
    unfold from_file
    rw [fold_first_read al A N junk lines _ l rs hd rfl]
    unfold table_of_rows
    simp only
    by_cases hr : ranks_inside al (row_kmer l).length (l :: rs) = true
    · simp only [hr, if_true, length_place, List.length_replicate]
      split
      · rfl
      · rfl
    · simp only [hr, if_false, Bool.false_eq_true]

theorem ranks_inside_iff (al : Alphabet) (k : Nat) (rows : List Text) :
    ranks_inside al k rows = true ↔
      ∀ x ∈ rows, al.kmer_rank (row_kmer x) k < al.get_num_strings k := by
  simp [ranks_inside, List.all_eq_true]

/-- The text constructor on an input with a first data row: when and with what it
returns. -/
theorem from_file_rows {F : Type} (al : Alphabet) (A : Arith F) (N : NumText F)
    (u : PoreModel F) (junk : Nat → PoreModelStateParams F) (lines : List Text)
    (l : Text) (rs : List Text) (hd : data_rows lines = l :: rs) (m : PoreModel F) :
    from_file al A N u junk lines = Except.ok m ↔
      ((∀ x ∈ l :: rs,
          al.kmer_rank (row_kmer x) (row_kmer l).length <
            al.get_num_strings (row_kmer l).length) ∧
        (l :: rs).length = al.get_num_strings (row_kmer l).length ∧
        m = { uninitialised u with
          k := (row_kmer l).length
          states := place al (row_kmer l).length (rows_read A N junk 0 (l :: rs))
            (List.replicate (al.get_num_strings (row_kmer l).length)
              (PoreModelStateParams.zero A))
          name := name_after lines [] }) := by
  rw [from_file_eq, hd, ← ranks_inside_iff]
  unfold table_of_rows
  simp only
  by_cases hr : ranks_inside al (row_kmer l).length (l :: rs) = true
  · by_cases hc : (l :: rs).length = al.get_num_strings (row_kmer l).length
    · simp only [hr, hc, if_true, true_and, Except.ok.injEq]
      exact eq_comm
    · simp only [hr, hc, if_true, if_false, true_and, false_and]
      constructor
      · intro h; cases h
      · intro h; exact h.elim
  · simp only [hr, if_false, false_and, Bool.false_eq_true]
    constructor
    · intro h; cases h
    · intro h; exact h.elim

/-- C14, as stated, fails: the table `table_torn` has a data row with three tokens and a
data row with a parameter that is not a number, and the Text Loader returns an entity:
the fields that were not read hold what the local `params` held (zero here), and the
field at which the extraction stopped holds zero. -/
theorem from_file_parse_counterexample :
    data_rows table_torn = table_torn ∧
    row_ok symArith symText "A\t1\t2".toList = false ∧
    row_ok symArith symText "T\tx\t3\t2\t1".toList = false ∧
    from_file dna symArith symText sym_memory sym_junk table_torn =
      Except.ok { sym_memory with
        k := 1
        states := [⟨.lit 1, .lit 2, .lit 0, .lit 0⟩, ⟨.lit 5, .lit 6, .lit 7, .lit 8⟩,
          ⟨.lit 9, .lit 9, .lit 9, .lit 9⟩, ⟨.lit 0, .lit 0, .lit 0, .lit 0⟩] } :=
  ⟨by decide, by decide, by decide, rfl⟩

/-- C14, amended (no parse check). A data line that does not tokenize into five fields is
not refused for that. On an input with a first data row, whose k-mer has length `k`, the
Text Loader returns an entity if and only if the rank of the k-mer of every data row lies
inside the table and the number of data rows is `get_num_strings k`; the entity then holds
every data row, at the rank of its k-mer, with the parameters that the five extractions
left. -/
theorem from_file_rows_unchecked {F : Type} (al : Alphabet) (A : Arith F) (N : NumText F)
    (u : PoreModel F) (junk : Nat → PoreModelStateParams F) (lines : List Text)
    (l : Text) (rs : List Text) (hd : data_rows lines = l :: rs) :
    ((∃ m, from_file al A N u junk lines = Except.ok m) ↔
      ((∀ x ∈ l :: rs,
          al.kmer_rank (row_kmer x) (row_kmer l).length <
            al.get_num_strings (row_kmer l).length) ∧
        (l :: rs).length = al.get_num_strings (row_kmer l).length)) ∧
    (∀ m, from_file al A N u junk lines = Except.ok m →
      m.k = (row_kmer l).length ∧
      m.states = place al (row_kmer l).length (rows_read A N junk 0 (l :: rs))
        (List.replicate (al.get_num_strings (row_kmer l).length)
          (PoreModelStateParams.zero A))) := by
  constructor
  · constructor
    · rintro ⟨m, hm⟩
      obtain ⟨h1, h2, -⟩ := (from_file_rows al A N u junk lines l rs hd m).1 hm
      exact ⟨h1, h2⟩
    · rintro ⟨h1, h2⟩
      exact ⟨_, (from_file_rows al A N u junk lines l rs hd _).2 ⟨h1, h2, rfl⟩⟩
  · intro m hm
    obtain ⟨-, -, rfl⟩ := (from_file_rows al A N u junk lines l rs hd m).1 hm
    exact ⟨rfl, rfl⟩

/-- C14, amended, on the table `table_torn`: its four data rows have their ranks inside
the table of the four 1-mers, and the Text Loader returns an entity. -/
theorem from_file_rows_unchecked_witness :
    data_rows table_torn = "C\t5\t6\t7\t8".toList :: table_torn.drop 1 ∧
    ∃ m, from_file dna symArith symText sym_memory sym_junk table_torn = Except.ok m :=
  ⟨by decide,
   ((from_file_rows_unchecked dna symArith symText sym_memory sym_junk table_torn
      "C\t5\t6\t7\t8".toList (table_torn.drop 1) (by decide)).1).2
      ⟨by decide, by decide⟩⟩

/-- C15, as stated, fails: with the four-symbol alphabet, the input made of one blank
line has a first data row with an empty k-mer, and the Text Loader returns an entity with
`k = 0` and one state. -/
theorem from_file_blank_line_counterexample :
    data_rows [[]] = [[]] ∧ row_kmer [] = [] ∧
    from_file dna symArith symText sym_memory sym_junk [[]] =
      Except.ok { sym_memory with
        k := 0, states := [⟨.lit 0, .lit 0, .lit 0, .lit 0⟩] } :=
  ⟨by decide, by decide, rfl⟩

/-- C15, amended (no check of the k-mer length). An input whose first data row has an
empty k-mer is not refused for that: the Text Loader returns an entity if and only if the
ranks of the data rows lie inside the table and the number of data rows is
`get_num_strings 0`, and that entity has `k = 0` and `get_num_strings 0` states. -/
theorem from_file_empty_kmer {F : Type} (al : Alphabet) (A : Arith F) (N : NumText F)
    (u : PoreModel F) (junk : Nat → PoreModelStateParams F) (lines : List Text)
    (l : Text) (rs : List Text) (hd : data_rows lines = l :: rs) (hk : row_kmer l = []) :
    ((∃ m, from_file al A N u junk lines = Except.ok m) ↔
      ((∀ x ∈ l :: rs, al.kmer_rank (row_kmer x) 0 < al.get_num_strings 0) ∧
        (l :: rs).length = al.get_num_strings 0)) ∧
    (∀ m, from_file al A N u junk lines = Except.ok m →
      m.k = 0 ∧ m.states.length = al.get_num_strings 0) := by
  have h0 : (row_kmer l).length = 0 := by rw [hk]; rfl
  constructor
  · constructor
    · rintro ⟨m, hm⟩
      obtain ⟨h1, h2, -⟩ := (from_file_rows al A N u junk lines l rs hd m).1 hm
      rw [h0] at h1 h2
      exact ⟨h1, h2⟩
    · rintro ⟨h1, h2⟩
      exact ⟨_, (from_file_rows al A N u junk lines l rs hd _).2
        ⟨by rw [h0]; exact h1, by rw [h0]; exact h2, rfl⟩⟩
  · intro m hm
    obtain ⟨-, -, rfl⟩ := (from_file_rows al A N u junk lines l rs hd m).1 hm
    refine ⟨h0, ?_⟩
    simp only [length_place, List.length_replicate, h0]

/-- C15, amended, on the input made of one blank line: the Text Loader returns an entity,
and it has `k = 0`. -/
theorem from_file_empty_kmer_witness :
    ∃ m, from_file dna symArith symText sym_memory sym_junk [[]] = Except.ok m ∧ m.k = 0 := by
  have h := from_file_empty_kmer dna symArith symText sym_memory sym_junk [[]] [] []
    (by decide) (by decide)
  obtain ⟨m, hm⟩ := h.1.2 ⟨by decide, by decide⟩
  exact ⟨m, hm, (h.2 m hm).1⟩

theorem is_header_iff (model_line : Text) :
    is_header model_line = true ↔
      (model_line.head? = some '#' ∨ "kmer".toList <+: model_line) := by
  cases model_line with
  | nil =>
    have h : ¬ ("kmer".toList <+: ([] : Text)) := by
      intro hp
      have := List.IsPrefix.length_le hp
      simp at this
    simp [is_header, find, h]
  | cons c cs =>
    unfold is_header
    rw [find_cons_eq_zero, Bool.or_eq_true, List.isPrefixOf_iff_prefix]
    simp

theorem data_rows_insert (pre post : List Text) (h : Text) (hh : is_header h = true) :
    data_rows (pre ++ h :: post) = data_rows (pre ++ post) := by
  simp [data_rows, List.filter_append, hh]

theorem table_of_rows_name {F : Type} (al : Alphabet) (A : Arith F) (N : NumText F)
    (u : PoreModel F) (junk : Nat → PoreModelStateParams F) (rows : List Text)
    (name name2 : Text) :
    (table_of_rows al A N u junk rows name).map (fun m => (m.k, m.states)) =
      (table_of_rows al A N u junk rows name2).map (fun m => (m.k, m.states)) := by
  unfold table_of_rows
  split
  · rfl
  · split
    · split
      · rfl
      · rfl
    · rfl

set_option maxRecDepth 4000 in
/-- C18, as stated, fails, in both directions. The first token of the line
` kmer<TAB>level_mean...`, which starts with a blank, is the word `kmer`, and the line is
treated as a data row: with it the table has five data rows and does not load, without it
the table loads. The line `kmerA<TAB>1<TAB>2<TAB>3<TAB>4` does not begin with `#`, its
first token is not the word `kmer`, and it is skipped. -/
theorem header_test_counterexample :
    (extract_string ⟨" kmer\tlevel_mean\tlevel_stdv\tsd_mean\tsd_stdv".toList, true⟩
      []).2 = "kmer".toList ∧
    is_header " kmer\tlevel_mean\tlevel_stdv\tsd_mean\tsd_stdv".toList = false ∧
    from_file dna symArith symText sym_memory sym_junk table_indented_header =
      Except.error Err.assertFailed ∧
    from_file dna symArith symText sym_memory sym_junk (table_indented_header.eraseIdx 1) =
      Except.ok model_one ∧
    (extract_string ⟨"kmerA\t1\t2\t3\t4".toList, true⟩ []).2 = "kmerA".toList ∧
    is_header "kmerA\t1\t2\t3\t4".toList = true :=
  ⟨rfl, rfl, rfl, rfl, rfl, rfl⟩

/-- C18, amended (header lines). A line is skipped exactly when it begins with `#` or
begins with the four characters `kmer`. Such a line does not count as a data row, does
not set `k` and does not write `states`: it leaves the state of the loop as it is, the
name apart. Every other line is treated as a data row: when the step does not fail it
counts the row, clears `firstKmer`, sets `k` to the length of its k-mer when it is the
first row, and stores the parameters read at the rank of its k-mer. Hence inserting or
removing a skipped line anywhere changes neither the success of the load nor `k` nor
`states`. -/
theorem header_lines_skipped {F : Type} (al : Alphabet) (A : Arith F) (N : NumText F)
    (u : PoreModel F) (junk : Nat → PoreModelStateParams F) :
    (∀ model_line : Text, is_header model_line = true ↔
      (model_line.head? = some '#' ∨ "kmer".toList <+: model_line)) ∧
    (∀ (st : LoadState F) (model_line : Text), is_header model_line = true →
      ∃ st1, load_line al A N junk st model_line = Except.ok st1 ∧
        st1.ninserted = st.ninserted ∧ st1.firstKmer = st.firstKmer ∧
        st1.obj.k = st.obj.k ∧ st1.obj.states = st.obj.states) ∧
    (∀ (st st1 : LoadState F) (model_line : Text), is_header model_line = false →
      load_line al A N junk st model_line = Except.ok st1 →
      st1.ninserted = st.ninserted + 1 ∧ st1.firstKmer = false ∧
      (st.firstKmer = true → st1.obj.k = (row_kmer model_line).length) ∧
      (st.firstKmer = false → st1.obj.k = st.obj.k) ∧
      st1.obj.states[al.kmer_rank (row_kmer model_line) st1.obj.k]? =
        some (read_params A N (junk st.ninserted) model_line)) ∧
    (∀ (pre post : List Text) (h : Text), is_header h = true →
      (from_file al A N u junk (pre ++ h :: post)).map (fun m => (m.k, m.states)) =
        (from_file al A N u junk (pre ++ post)).map (fun m => (m.k, m.states))) := by
  refine ⟨is_header_iff, ?_, ?_, ?_⟩
  · intro st model_line hh
    exact ⟨_, load_line_header al A N junk st model_line hh, rfl, rfl, rfl, rfl⟩
  · intro st st1 model_line hh h
    obtain ⟨obj, fk, n⟩ := st
    cases fk with
    | false =>
      rw [load_line_data_eq al A N junk obj n model_line hh] at h
      split at h
      · rename_i hr
        cases h
        refine ⟨rfl, rfl, fun hf => by simp at hf, fun _ => rfl, ?_⟩
        exact List.getElem?_set_self hr
      · cases h
    | true =>
      simp only [load_line, hh, Bool.false_eq_true, if_false, if_true, read_params,
        read_model_name_stream, read_row_stream_kmer] at h
      split at h
      · rename_i hr
        cases h
        refine ⟨rfl, rfl, fun _ => rfl, fun hf => by simp at hf, ?_⟩
        exact List.getElem?_set_self hr
      · cases h
  · intro pre post h hh
    rw [from_file_eq, from_file_eq, data_rows_insert pre post h hh]
    exact table_of_rows_name al A N u junk _ _ _

/-- C18, amended, on the table `table_one`: its column header begins with `kmer`, and
the table loads to the same `k` and `states` with and without it. -/
theorem header_lines_skipped_witness :
    is_header "kmer\tlevel_mean\tlevel_stdv\tsd_mean\tsd_stdv".toList = true ∧
    (from_file dna symArith symText sym_memory sym_junk table_one).map
        (fun m => (m.k, m.states)) =
      (from_file dna symArith symText sym_memory sym_junk (table_one.eraseIdx 1)).map
        (fun m => (m.k, m.states)) :=
  ⟨by decide,
   (header_lines_skipped dna symArith symText sym_memory sym_junk).2.2.2
      ["#model_name\tr9".toList] (table_one.drop 2)
      "kmer\tlevel_mean\tlevel_stdv\tsd_mean\tsd_stdv".toList (by decide)⟩

/-- C19 (duplicate k-mers pass the count check). For `k = 1` and the four-symbol
alphabet, the table `table_duplicate` has exactly `get_num_strings 1 = 4` well-formed data
rows, in which the k-mer `A` appears twice and the k-mer `T` never. The Text Loader
succeeds on it; the rank of `A` holds the parameters of the last row of `A`, and the rank
of `T` holds the all-zero entry of `resize`, which is the parameters of no row. -/
theorem from_file_duplicate_kmer :
    ∃ k, 1 ≤ k ∧ ∃ lines : List Text,
      (data_rows lines).length = dna.get_num_strings k ∧
      (∀ l ∈ data_rows lines, row_ok symArith symText l = true ∧ (row_kmer l).length = k) ∧
      ((data_rows lines).map row_kmer).count "A".toList = 2 ∧
      "T".toList ∉ (data_rows lines).map row_kmer ∧
      ∃ m, from_file dna symArith symText sym_memory sym_junk lines = Except.ok m ∧
        ((data_rows lines).filter (fun l => row_kmer l == "A".toList)).getLast? =
          some "A\t4\t3\t2\t1".toList ∧
        m.states[dna.kmer_rank "A".toList k]? =
          some (row_params symArith symText "A\t4\t3\t2\t1".toList) ∧
        m.states[dna.kmer_rank "T".toList k]? = some (PoreModelStateParams.zero symArith) ∧
        ∀ l ∈ data_rows lines,
          row_params symArith symText l ≠ PoreModelStateParams.zero symArith :=
  ⟨1, le_refl 1, table_duplicate, by decide, by decide, by decide, by decide,
    { sym_memory with
      k := 1
      states := [⟨.lit 4, .lit 3, .lit 2, .lit 1⟩, ⟨.lit 5, .lit 6, .lit 7, .lit 8⟩,
        ⟨.lit 9, .lit 9, .lit 9, .lit 9⟩, ⟨.lit 0, .lit 0, .lit 0, .lit 0⟩] },
    rfl, by decide, by decide, by decide, by decide⟩

/-! ## Names, flags, sizes and the scaler: claims -/

theorem table_of_rows_is_scaled {F : Type} (al : Alphabet) (A : Arith F) (N : NumText F)
    (u : PoreModel F) (junk : Nat → PoreModelStateParams F) (rows : List Text) (name : Text)
    (m : PoreModel F) (h : table_of_rows al A N u junk rows name = Except.ok m) :
    m.is_scaled = u.is_scaled ∧ m.scaled_params = [] ∧ m.shift = u.shift ∧
    m.scale = u.scale ∧ m.drift = u.drift ∧ m.var = u.var ∧ m.scale_sd = u.scale_sd ∧
    m.var_sd = u.var_sd := by
  unfold table_of_rows at h
  split at h
  · cases h
    exact ⟨rfl, rfl, rfl, rfl, rfl, rfl, rfl, rfl⟩
  · split at h
    · split at h
      · cases h
        exact ⟨rfl, rfl, rfl, rfl, rfl, rfl, rfl, rfl⟩
      · cases h
    · cases h

/-- C11 (name derivation, no-prefix case): the code breaks the claim. The path
`xx/opt/chimaera/model/abc` does not begin with the installation prefix, and the prefix
string occurs in it from position 2 on: `find` reports it as found, and
`substr(leader.size())` drops the first twenty characters of the path, so the name is
`l_abc` and not the whole path `xx_opt_chimaera_model_abc`. -/
theorem from_fast5_name_leader_inside :
    leader.isPrefixOf path_leader_inside = false ∧
    find path_leader_inside leader = some 2 ∧
    ∃ m, from_fast5 dna symArith sym_memory records_one parameters_one path_leader_inside =
        Except.ok m ∧
      m.name = "l_abc".toList ∧
      m.name ≠ path_leader_inside.map (fun c => if c = '/' then '_' else c) := by
  refine ⟨by decide, by decide, ?_⟩
  obtain ⟨m, hm⟩ : ∃ m, from_fast5 dna symArith sym_memory records_one parameters_one
      path_leader_inside = Except.ok m :=
    ⟨_, from_fast5_ok dna symArith sym_memory _ _ parameters_one _ (by decide) (by decide)⟩
  have hn : m.name = "l_abc".toList :=
    (from_fast5_name dna symArith sym_memory records_one parameters_one _ m hm).trans
      (by decide)
  exact ⟨m, hm, hn, by rw [hn]; decide⟩

/-- C12 (`is_scaled` after the Text Loader): the code breaks the claim. The text
constructor never assigns `is_scaled`: for every input and every content of the memory, a
successful load returns the flag that the memory held. On the table of 1-mers `table_one`,
built in memory where the flag reads true, the entity has `is_scaled = true`, and a later
`update_states` runs the scaler (the empty `scaled_params` gets its four entries). -/
theorem from_file_is_scaled_unset :
    (∀ (F : Type) (al : Alphabet) (A : Arith F) (N : NumText F) (u : PoreModel F)
        (junk : Nat → PoreModelStateParams F) (lines : List Text),
      (from_file al A N u junk lines).map (fun m => m.is_scaled) =
        (from_file al A N u junk lines).map (fun _ => u.is_scaled)) ∧
    from_file dna symArith symText sym_memory_scaled sym_junk table_one =
      Except.ok { model_one with is_scaled := true } ∧
    (PoreModel.update_states symArith { model_one with is_scaled := true }
      model_one.states).scaled_params.length = 4 := by
  refine ⟨?_, rfl, by decide⟩
  intro F al A N u junk lines
  cases h : from_file al A N u junk lines with
  | error e => rfl
  | ok m =>
    rw [from_file_eq] at h
    have := (table_of_rows_is_scaled al A N u junk _ _ m h).1
    simp only [Except.map, this]

/-- C13, as stated, fails: the entity `model_one` has `k = 1` and four states, as many as
there are 1-mers, and after `update_states` with an empty table it has no state. -/
theorem update_states_size_counterexample :
    model_one.states.length = dna.get_num_strings model_one.k ∧
    (PoreModel.update_states symArith model_one []).states.length ≠
      dna.get_num_strings (PoreModel.update_states symArith model_one []).k := by
  decide

/-- C13, amended (size invariant). For an entity with `states.size()` equal to
`get_num_strings k`: `bake_gaussian_parameters` leaves `states` and `k` as they are, so the
equality still holds; `update_states`, with a table or with another model, leaves `k` as
it is and makes `states` the table given, so the equality holds afterwards exactly when
the table given has `get_num_strings k` entries. -/
theorem size_invariant_of_operations {F : Type} (al : Alphabet) (A : Arith F)
    (m : PoreModel F) (h : m.states.length = al.get_num_strings m.k) :
    (PoreModel.bake_gaussian_parameters A m).states.length =
      al.get_num_strings (PoreModel.bake_gaussian_parameters A m).k ∧
    (∀ t : List (PoreModelStateParams F),
      (PoreModel.update_states A m t).k = m.k ∧
      (PoreModel.update_states A m t).states = t ∧
      ((PoreModel.update_states A m t).states.length =
          al.get_num_strings (PoreModel.update_states A m t).k ↔
        t.length = al.get_num_strings m.k)) ∧
    (∀ other : PoreModel F,
      (PoreModel.update_states_from A m other).k = m.k ∧
      (PoreModel.update_states_from A m other).states = other.states ∧
      ((PoreModel.update_states_from A m other).states.length =
          al.get_num_strings (PoreModel.update_states_from A m other).k ↔
        other.states.length = al.get_num_strings m.k)) := by
  have key : ∀ t : List (PoreModelStateParams F),
      (PoreModel.update_states A m t).k = m.k ∧ (PoreModel.update_states A m t).states = t := by
    intro t
    unfold PoreModel.update_states
    simp only
    split
    · rw [PoreModel.bake_eq]
      exact ⟨rfl, rfl⟩
    · exact ⟨rfl, rfl⟩
  refine ⟨?_, fun t => ⟨(key t).1, (key t).2, ?_⟩, fun other => ⟨(key _).1, (key _).2, ?_⟩⟩
  · rw [PoreModel.bake_eq]
    exact h
  · rw [(key t).1, (key t).2]
  · unfold PoreModel.update_states_from
    rw [(key _).1, (key _).2]

/-- C13, amended, on the entity `model_one`: a replacement table of four entries keeps the
size of the table equal to the number of 1-mers. -/
theorem size_invariant_of_operations_witness :
    model_one.states.length = dna.get_num_strings model_one.k ∧
    (PoreModel.update_states symArith model_one model_one.states.reverse).states.length =
      dna.get_num_strings (PoreModel.update_states symArith model_one
        model_one.states.reverse).k :=
  ⟨by decide,
   ((size_invariant_of_operations dna symArith model_one (by decide)).2.1
      model_one.states.reverse).2.2.2 (by decide)⟩

/-- C16, as stated, fails: on a reader that yields no line, with the four-symbol
alphabet, the Text Loader returns an entity, whose table is empty. -/
theorem from_file_missing_counterexample :
    ∃ m, from_file dna symArith symText sym_memory sym_junk [] = Except.ok m ∧
      m.states = [] :=
  ⟨sym_memory, rfl, rfl⟩

/-- C16, amended (missing source). When the reader yields no line at all, the Text Loader
does not fail: it returns the object as it was when the constructor body started, with an
empty `states`, an empty `scaled_params` and an empty `name`, and with `k`, `is_scaled` and
the coefficients never assigned. -/
theorem from_file_no_lines {F : Type} (al : Alphabet) (A : Arith F) (N : NumText F)
    (u : PoreModel F) (junk : Nat → PoreModelStateParams F) :
    from_file al A N u junk [] =
      Except.ok { u with states := [], scaled_params := [], name := [] } := by
  rw [from_file_eq]
  rfl

/-- C20 (frame of `update_states`). On an entity with `is_scaled = false`, `update_states`
changes `states` to the replacement table and nothing else: `is_scaled`, `scaled_params`,
`k`, `name` and the six coefficients keep their values. On every entity, scaled or not,
`k`, `name` and the six coefficients keep their values. -/
theorem update_states_frame {F : Type} (A : Arith F) (m : PoreModel F)
    (t : List (PoreModelStateParams F)) :
    (m.is_scaled = false → PoreModel.update_states A m t = { m with states := t }) ∧
    (PoreModel.update_states A m t).k = m.k ∧
    (PoreModel.update_states A m t).name = m.name ∧
    (PoreModel.update_states A m t).shift = m.shift ∧
    (PoreModel.update_states A m t).scale = m.scale ∧
    (PoreModel.update_states A m t).drift = m.drift ∧
    (PoreModel.update_states A m t).var = m.var ∧
    (PoreModel.update_states A m t).scale_sd = m.scale_sd ∧
    (PoreModel.update_states A m t).var_sd = m.var_sd := by
  refine ⟨fun h => by simp [PoreModel.update_states, h], ?_⟩
  unfold PoreModel.update_states
  simp only
  split
  · rw [PoreModel.bake_eq]
    exact ⟨rfl, rfl, rfl, rfl, rfl, rfl, rfl, rfl⟩
  · exact ⟨rfl, rfl, rfl, rfl, rfl, rfl, rfl, rfl⟩

/-- C20 on the unscaled entity `model_one`: after `update_states` with a one-entry table
the entity differs from `model_one` in `states` alone. -/
theorem update_states_frame_witness :
    model_one.is_scaled = false ∧
    PoreModel.update_states symArith model_one [⟨.lit 7, .lit 7, .lit 7, .lit 7⟩] =
      { model_one with states := [⟨.lit 7, .lit 7, .lit 7, .lit 7⟩] } :=
  ⟨rfl, (update_states_frame symArith model_one [⟨.lit 7, .lit 7, .lit 7, .lit 7⟩]).1 rfl⟩

/-- C17, as stated, fails: over the real numbers, for the one-entry table with
`level_stdv = -2` and `var = 1`, whose product is not positive, the scaler returns, with
`is_scaled = true` and a scaled table of one entry with `stdv = -2`. -/
theorem bake_nonpositive_counterexample :
    (-2 : ℝ) * 1 ≤ 0 ∧
    (PoreModel.bake_gaussian_parameters (fieldArith Real.log id)
      { k := 0, states := [⟨80, -2, 0, 0⟩], scaled_params := [], shift := 0, scale := 1,
        drift := 0, var := 1, scale_sd := 1, var_sd := 1, is_scaled := false,
        name := [] }).is_scaled = true ∧
    ((PoreModel.bake_gaussian_parameters (fieldArith Real.log id)
      { k := 0, states := [⟨80, -2, 0, 0⟩], scaled_params := [], shift := 0, scale := 1,
        drift := 0, var := 1, scale_sd := 1, var_sd := 1, is_scaled := false,
        name := [] }).scaled_params.map (fun g => g.stdv)) = [-2] := by
  refine ⟨by norm_num, ?_, ?_⟩
  · rw [PoreModel.bake_eq]
  · rw [PoreModel.bake_eq]
    simp [PoreModel.scaled_of, fieldArith]

/-- C17, amended (no numeric domain check). The Gaussian scaler never fails, whatever the
values of `level_stdv * var`: invoked directly it returns an entity with `is_scaled = true`
whose scaled table holds, at every rank, `log_stdv = log (level_stdv * var)` as the
library computes it; `update_states` on a scaled entity returns such an entity for the
new table; and the Container Loader, given a record list of the right length with ranks
inside the table, returns such an entity. -/
theorem scaler_never_fails {F : Type} (al : Alphabet) (A : Arith F) (u : PoreModel F) :
    (∀ m : PoreModel F,
      (PoreModel.bake_gaussian_parameters A m).is_scaled = true ∧
      (PoreModel.bake_gaussian_parameters A m).scaled_params =
        m.states.map (fun s =>
          { mean := A.add (A.mul s.level_mean m.scale) m.shift
            stdv := A.mul s.level_stdv m.var
            log_stdv := A.log (A.mul s.level_stdv m.var) })) ∧
    (∀ (m : PoreModel F) (t : List (PoreModelStateParams F)), m.is_scaled = true →
      (PoreModel.update_states A m t).is_scaled = true ∧
      (PoreModel.update_states A m t).scaled_params =
        t.map (fun s =>
          { mean := A.add (A.mul s.level_mean m.scale) m.shift
            stdv := A.mul s.level_stdv m.var
            log_stdv := A.log (A.mul s.level_stdv m.var) })) ∧
    (∀ (first : Model_Entry F) (rest : List (Model_Entry F)) (params : Model_Parameters F)
        (model_file : Text),
      (first :: rest).length = al.get_num_strings first.kmer.length →
      (∀ e ∈ first :: rest,
        al.kmer_rank e.kmer first.kmer.length < al.get_num_strings first.kmer.length) →
      ∃ m, from_fast5 al A u (first :: rest) params model_file = Except.ok m ∧
        m.is_scaled = true ∧
        m.scaled_params =
          m.states.map (fun s =>
            { mean := A.add (A.mul s.level_mean params.scale) params.shift
              stdv := A.mul s.level_stdv params.var
              log_stdv := A.log (A.mul s.level_stdv params.var) })) := by
  refine ⟨fun m => ?_, fun m t h => ?_, fun first rest params model_file hlen hrange => ?_⟩
  · rw [PoreModel.bake_eq]
    exact ⟨rfl, rfl⟩
  · have e : PoreModel.update_states A m t =
        PoreModel.bake_gaussian_parameters A { m with states := t } := by
      simp [PoreModel.update_states, h]
    rw [e, PoreModel.bake_eq]
    exact ⟨rfl, rfl⟩
  · refine ⟨_, from_fast5_ok al A u first rest params model_file hlen hrange, ?_⟩
    rw [PoreModel.bake_eq]
    exact ⟨rfl, rfl⟩

/-- C17, amended, over the real numbers: on a scaled entity, `update_states` with a
one-entry table whose `level_stdv` is `-2` returns a scaled entity; and the Container
Loader returns a scaled entity for four records of 1-mers whose `level_stdv` is `-2`. -/
theorem scaler_never_fails_witness :
    (PoreModel.update_states (fieldArith Real.log id)
      { k := 0, states := [⟨80, 2, 0, 0⟩], scaled_params := [⟨80, 2, Real.log 2⟩],
        shift := 0, scale := 1, drift := 0, var := 1, scale_sd := 1, var_sd := 1,
        is_scaled := true, name := [] }
      [⟨80, -2, 0, 0⟩]).is_scaled = true ∧
    ∃ m, from_fast5 dna (fieldArith Real.log id)
        { k := 0, states := [], scaled_params := [], shift := 0, scale := 0, drift := 0,
          var := 0, scale_sd := 0, var_sd := 0, is_scaled := false, name := [] }
        (⟨"A".toList, 80, -2, 0, 0⟩ ::
          [⟨"C".toList, 80, -2, 0, 0⟩, ⟨"G".toList, 80, -2, 0, 0⟩,
           ⟨"T".toList, 80, -2, 0, 0⟩])
        ⟨0, 1, 1, 0, 1, 1⟩ [] = Except.ok m ∧ m.is_scaled = true := by
  refine ⟨?_, ?_⟩
  · exact ((scaler_never_fails dna (fieldArith Real.log id)
      { k := 0, states := [], scaled_params := [], shift := 0, scale := 0, drift := 0,
        var := 0, scale_sd := 0, var_sd := 0, is_scaled := false, name := [] }).2.1
      { k := 0, states := [⟨80, 2, 0, 0⟩], scaled_params := [⟨80, 2, Real.log 2⟩],
        shift := 0, scale := 1, drift := 0, var := 1, scale_sd := 1, var_sd := 1,
        is_scaled := true, name := [] }
      [⟨80, -2, 0, 0⟩] rfl).1
  · obtain ⟨m, hm, hs, -⟩ := (scaler_never_fails dna (fieldArith Real.log id)
      { k := 0, states := [], scaled_params := [], shift := 0, scale := 0, drift := 0,
        var := 0, scale_sd := 0, var_sd := 0, is_scaled := false, name := [] }).2.2
      ⟨"A".toList, 80, -2, 0, 0⟩
      [⟨"C".toList, 80, -2, 0, 0⟩, ⟨"G".toList, 80, -2, 0, 0⟩, ⟨"T".toList, 80, -2, 0, 0⟩]
      ⟨0, 1, 1, 0, 1, 1⟩ [] (by decide) (by
        intro e he
        simp only [List.mem_cons, List.mem_singleton, List.not_mem_nil, or_false] at he
        rcases he with rfl | rfl | rfl | rfl <;> decide)
    exact ⟨m, hm, hs⟩

end Nanopolish
